import Mathlib

/-!
OpenOrd density grid (`graph/layout/openord.go`)

A shallow embedding of the density grid, its fall-off kernel and the per-cell
FIFO queue of `openord.go`, followed by theorems about them.

Modelling conventions.

* `float64` values are rationals: every statement is over exact arithmetic.
* Go's `int(f)` conversion is truncation toward zero (`goInt`).
* `*openOrdNode` is an address `Ptr` into a node store; a `nil` pointer is
  `none`.  A grid together with the node store is a `Mem`.
* A Go panic is a value of `Panic`; operations that mutate return the state
  reached when they stopped together with the panic, if any.
* The fixed-size arrays are functions of `Int` indices; every array access of
  the source is guarded by the range check the Go runtime performs.
* A slice is its list of elements (`len` is the list length) plus its
  capacity.  The capacity chosen by the runtime when `append` reallocates is
  an argument (`grow`, the number of spare slots beyond the new length).
-/

namespace OpenOrd

/-! ## Constants -/

def openOrdRadius : Int := 10
def openOrdGridSize : Int := 1000
def openOrdView : Int := 4000
def openOrdViewToGrid : ℚ := (openOrdGridSize : ℚ) / (openOrdView : ℚ)

/-- The `boundary` constant local to `at`. -/
def boundary : Int := 10

/-! ## Panics and outcomes -/

/-- The ways the code can abort. -/
inductive Panic where
  /-- The explicit `panic("openord: node outside grid")`. -/
  | nodeOutsideGrid
  /-- The explicit `panic("queue: empty queue")`. -/
  | emptyQueue
  /-- Run-time error: array or slice index out of range. -/
  | indexOutOfRange
  /-- Run-time error: slice bounds out of range. -/
  | sliceBounds
  /-- Run-time error: nil pointer dereference. -/
  | nilDereference
  deriving DecidableEq, Repr

/-- State reached by a mutating operation and the panic that stopped it, if any. -/
structure Outcome (σ : Type) where
  state : σ
  panic : Option Panic

/-- The loop `for i := lo; i < lo+k; i++ { body }`; a panic in the body ends it. -/
def forCount {σ : Type} (body : Int → σ → Outcome σ) (lo : Int) : Nat → σ → Outcome σ
  | 0, s => ⟨s, none⟩
  | k + 1, s =>
    match (forCount body lo k s).panic with
    | none => body (lo + k) (forCount body lo k s).state
    | some e => ⟨(forCount body lo k s).state, some e⟩

/-- The loop `for i := lo; i <= hi; i++ { body }`. -/
def forLoop {σ : Type} (lo hi : Int) (body : Int → σ → Outcome σ) (s : σ) : Outcome σ :=
  forCount body lo (hi + 1 - lo).toNat s

/-! ## Data model -/

/-- The type `r2.Vec`. -/
structure Vec where
  X : ℚ
  Y : ℚ
  deriving DecidableEq

/-- The method `r2.Vec.Sub`. -/
def Vec.Sub (p q : Vec) : Vec := ⟨p.X - q.X, p.Y - q.Y⟩

/-- Address of an `openOrdNode`. -/
abbrev Ptr := Nat

structure openOrdNode where
  id : Int
  fixed : Bool
  addPos : Vec
  subPos : Vec
  energy : ℚ
  deriving DecidableEq

/-- The FIFO queue: `head`, the elements of `data` and `cap(data)`. -/
structure openOrdQueue where
  head : Int
  data : List (Option Ptr)
  cap : Nat
  deriving DecidableEq

structure densityGrid where
  fallOff : Int → Int → ℚ
  density : Int → Int → ℚ
  bins : Int → Int → openOrdQueue

/-- A grid and the nodes that pointers refer to. -/
structure Mem where
  grid : densityGrid
  nodes : Ptr → openOrdNode

/-- Go's `int(f)` on a float: truncation toward zero. -/
def goInt (v : ℚ) : Int := if 0 ≤ v then ⌊v⌋ else ⌈v⌉

/-- The grid coordinate `int((v + openOrdView/2 + 0.5) * openOrdViewToGrid)`. -/
def cellOf (v : ℚ) : Int :=
  goInt ((v + ((openOrdView / 2 : Int) : ℚ) + 0.5) * openOrdViewToGrid)

/-- The bounds check of an index into an array of length `openOrdGridSize`. -/
def inGrid (k : Int) : Prop := 0 ≤ k ∧ k < openOrdGridSize

instance (k : Int) : Decidable (inGrid k) := by unfold inGrid; infer_instance

/-- Assignment to `density[r][c]`. -/
def setDensity (m : Mem) (r c : Int) (v : ℚ) : Mem :=
  { m with grid := { m.grid with
      density := fun r' c' => if r' = r ∧ c' = c then v else m.grid.density r' c' } }

/-- Assignment to `fallOff[r][c]`. -/
def setFallOff (g : densityGrid) (r c : Int) (v : ℚ) : densityGrid :=
  { g with fallOff := fun r' c' => if r' = r ∧ c' = c then v else g.fallOff r' c' }

/-- Replacement of the queue `bins[r][c]`. -/
def setBin (m : Mem) (r c : Int) (q : openOrdQueue) : Mem :=
  { m with grid := { m.grid with
      bins := fun r' c' => if r' = r ∧ c' = c then q else m.grid.bins r' c' } }

/-- The assignment `n.subPos = n.addPos`. -/
def setSubPos (m : Mem) (n : Ptr) : Mem :=
  { m with nodes := fun p =>
      if p = n then { m.nodes n with subPos := (m.nodes n).addPos } else m.nodes p }

/-- The driver's assignment `n.addPos = q`. -/
def setAddPos (m : Mem) (n : Ptr) (q : Vec) : Mem :=
  { m with nodes := fun p => if p = n then { m.nodes n with addPos := q } else m.nodes p }

/-! ## openOrdQueue -/

/-- The zero value of the queue: `head` 0 and a nil slice. -/
def openOrdQueue.zero : openOrdQueue := ⟨0, [], 0⟩

def openOrdQueue.len (q : openOrdQueue) : Int := (q.data.length : Int) - q.head

/-- Go's `append(s, x)` on a slice with elements `data` and capacity `cap`:
in place when there is room, otherwise a reallocation with `grow` spare slots. -/
def goAppend (data : List (Option Ptr)) (cap : Nat) (x : Option Ptr) (grow : Nat) :
    List (Option Ptr) × Nat :=
  if data.length + 1 ≤ cap then (data ++ [x], cap) else (data ++ [x], data.length + 1 + grow)

def openOrdQueue.enqueue (q : openOrdQueue) (n : Option Ptr) (grow : Nat) :
    Outcome openOrdQueue :=
  if q.data.length = q.cap ∧ q.head > 0 then
    let l := q.len
    -- q.data[q.head:]
    if q.head ≤ q.data.length then
      let live := q.data.drop q.head.toNat
      -- copy(q.data, q.data[q.head:])
      let data1 := live ++ q.data.drop live.length
      -- q.head = 0; q.data[:l]
      if 0 ≤ l ∧ l ≤ q.cap then
        let r := goAppend (data1.take l.toNat) q.cap n grow
        ⟨⟨0, r.1, r.2⟩, none⟩
      else ⟨⟨0, data1, q.cap⟩, some Panic.sliceBounds⟩
    else ⟨q, some Panic.sliceBounds⟩
  else
    let r := goAppend q.data q.cap n grow
    ⟨⟨q.head, r.1, r.2⟩, none⟩

/-- The method `reset`: `q.head = 0; q.data = q.data[:0]`. -/
def openOrdQueue.reset (q : openOrdQueue) : openOrdQueue := ⟨0, [], q.cap⟩

/-- The method `dequeue`: the queue afterwards and the pointer returned, or the panic. -/
def openOrdQueue.dequeue (q : openOrdQueue) : openOrdQueue × Except Panic (Option Ptr) :=
  if q.len = 0 then (q, Except.error Panic.emptyQueue)
  else if 0 ≤ q.head ∧ q.head < q.data.length then
    let n := q.data.getD q.head.toNat none
    let q1 : openOrdQueue := ⟨q.head + 1, q.data.set q.head.toNat none, q.cap⟩
    if q1.len = 0 then (q1.reset, Except.ok n) else (q1, Except.ok n)
  else (q, Except.error Panic.indexOutOfRange)

/-- The method `slice`: `q.data[q.head:]`. -/
def openOrdQueue.slice (q : openOrdQueue) : Except Panic (List (Option Ptr)) :=
  if 0 ≤ q.head ∧ q.head ≤ q.data.length then Except.ok (q.data.drop q.head.toNat)
  else Except.error Panic.sliceBounds

/-! ## densityGrid -/

/-- The method `init`, on the grid alone. -/
@[irreducible]
def densityGrid.init (g : densityGrid) : densityGrid :=
  (forLoop (-openOrdRadius) openOrdRadius (fun i g1 =>
    forLoop (-openOrdRadius) openOrdRadius (fun j g2 =>
      ⟨setFallOff g2 (i + openOrdRadius) (j + openOrdRadius)
        (((openOrdRadius : ℚ) - |(i : ℚ)| / (openOrdRadius : ℚ)) *
          ((openOrdRadius : ℚ) - |(j : ℚ)| / (openOrdRadius : ℚ))), none⟩) g1) g).state

/-- The innermost loop of `at`: `for _, r := range slice { ... }` on the accumulator `d`. -/
def scanBin (m : Mem) (pos : Vec) : List (Option Ptr) → ℚ → Outcome ℚ
  | [], d => ⟨d, none⟩
  | none :: _, d => ⟨d, some Panic.nilDereference⟩
  | some r :: rs, _ =>
    let v := pos.Sub (m.nodes r).addPos
    let d := v.X * v.X + v.Y * v.Y
    scanBin m pos rs (d + 1e-4 / (d + 1e-50))

def densityGrid.at (m : Mem) (pos : Vec) (fine : Bool) : Except Panic ℚ :=
  let x := cellOf pos.X
  let y := cellOf pos.Y
  if y < boundary ∨ openOrdGridSize - boundary < y then Except.ok 1e4
  else if x < boundary ∨ openOrdGridSize - boundary < x then Except.ok 1e4
  else if !fine then
    if inGrid y ∧ inGrid x then
      let d := m.grid.density y x
      Except.ok (d * d)
    else Except.error Panic.indexOutOfRange
  else
    let r := forLoop (y - 1) (y + 1) (fun i d1 =>
      forLoop (x - 1) (x + 1) (fun j d2 =>
        if inGrid i ∧ inGrid j then
          match (m.grid.bins i j).slice with
          | Except.ok l => scanBin m pos l d2
          | Except.error e => ⟨d2, some e⟩
        else ⟨d2, some Panic.indexOutOfRange⟩) d1) (0 : ℚ)
    match r.panic with
    | none => Except.ok r.state
    | some e => Except.error e

def densityGrid.fineAdd (m : Mem) (n : Ptr) (grow : Nat) : Outcome Mem :=
  let x := cellOf (m.nodes n).addPos.X
  let y := cellOf (m.nodes n).addPos.Y
  let m1 := setSubPos m n
  if inGrid y ∧ inGrid x then
    let r := (m1.grid.bins y x).enqueue (some n) grow
    ⟨setBin m1 y x r.state, r.panic⟩
  else ⟨m1, some Panic.indexOutOfRange⟩

def densityGrid.coarseAdd (m : Mem) (n : Ptr) : Outcome Mem :=
  let x := cellOf (m.nodes n).addPos.X - openOrdRadius
  let y := cellOf (m.nodes n).addPos.Y - openOrdRadius
  if x < 0 ∨ openOrdGridSize ≤ x then ⟨m, some Panic.nodeOutsideGrid⟩
  else if y < 0 ∨ openOrdGridSize ≤ y then ⟨m, some Panic.nodeOutsideGrid⟩
  else
    forLoop 0 (openOrdRadius * 2) (fun i m1 =>
      forLoop 0 (openOrdRadius * 2) (fun j m2 =>
        if inGrid (y + i) ∧ inGrid (x + j) then
          ⟨setDensity m2 (y + i) (x + j) (m2.grid.density (y + i) (x + j) + m2.grid.fallOff i j),
            none⟩
        else ⟨m2, some Panic.indexOutOfRange⟩) m1) (setSubPos m n)

def densityGrid.add (m : Mem) (n : Ptr) (fine : Bool) (grow : Nat) : Outcome Mem :=
  if fine then densityGrid.fineAdd m n grow else densityGrid.coarseAdd m n

def densityGrid.fineSub (m : Mem) (n : Ptr) : Outcome Mem :=
  let x := cellOf (m.nodes n).addPos.X
  let y := cellOf (m.nodes n).addPos.Y
  if inGrid y ∧ inGrid x then
    match (m.grid.bins y x).dequeue with
    | (q, Except.ok _) => ⟨setBin m y x q, none⟩
    | (q, Except.error e) => ⟨setBin m y x q, some e⟩
  else ⟨m, some Panic.indexOutOfRange⟩

def densityGrid.coarseSub (m : Mem) (n : Ptr) : Outcome Mem :=
  let x := cellOf (m.nodes n).addPos.X - openOrdRadius
  let y := cellOf (m.nodes n).addPos.Y - openOrdRadius
  forLoop 0 (openOrdRadius * 2) (fun i m1 =>
    forLoop 0 (openOrdRadius * 2) (fun j m2 =>
      if inGrid (y + i) ∧ inGrid (x + j) then
        ⟨setDensity m2 (y + i) (x + j) (m2.grid.density (y + i) (x + j) - m2.grid.fallOff i j),
          none⟩
      else ⟨m2, some Panic.indexOutOfRange⟩) m1) m

def densityGrid.sub (m : Mem) (n : Ptr) (firstAdd fineFirstAdd fine : Bool) : Outcome Mem :=
  if fine ∧ !fineFirstAdd then densityGrid.fineSub m n
  else if !firstAdd then densityGrid.coarseSub m n
  else ⟨m, none⟩

/-! ## Clients of the queue -/

/-- One step of a client of the queue. -/
inductive QueueOp where
  | enqueue (n : Ptr) (grow : Nat)
  | dequeue
  | reset

/-- The queue after one operation (a failing `dequeue` leaves it as it was). -/
def QueueOp.run (q : openOrdQueue) : QueueOp → openOrdQueue
  | QueueOp.enqueue n grow => (q.enqueue (some n) grow).state
  | QueueOp.dequeue => q.dequeue.1
  | QueueOp.reset => q.reset

def runOps (q : openOrdQueue) (ops : List QueueOp) : openOrdQueue := ops.foldl QueueOp.run q

/-- The plain list FIFO of the specification: append on enqueue, drop the first element on
dequeue, clear on reset. -/
def QueueOp.specRun (l : List Ptr) : QueueOp → List Ptr
  | QueueOp.enqueue n _ => l ++ [n]
  | QueueOp.dequeue => l.drop 1
  | QueueOp.reset => []

def specOps (l : List Ptr) (ops : List QueueOp) : List Ptr := ops.foldl QueueOp.specRun l

/-- What `dequeue` returns on the plain list FIFO of the specification. -/
def specDequeue : List Ptr → Except Panic (Option Ptr)
  | [] => Except.error Panic.emptyQueue
  | a :: _ => Except.ok (some a)

/-- Enqueue every node of a list, each with the spare capacity the runtime picks if it
reallocates. -/
def enqueueAll (q : openOrdQueue) (es : List (Ptr × Nat)) : openOrdQueue :=
  es.foldl (fun q e => (q.enqueue (some e.1) e.2).state) q

/-- The results of `k` successive calls of `dequeue`, and the queue they leave. -/
def dequeueN : Nat → openOrdQueue → openOrdQueue × List (Except Panic (Option Ptr))
  | 0, q => (q, [])
  | k + 1, q => ((dequeueN k q.dequeue.1).1, q.dequeue.2 :: (dequeueN k q.dequeue.1).2)

/-- The queue `q` represents the list `l`: the live part of `data` is `l`. -/
def Represents (q : openOrdQueue) (l : List Ptr) : Prop :=
  ∃ h : Nat, q.head = (h : Int) ∧ h ≤ q.data.length ∧ q.data.drop h = l.map some

/-! ## Walls and concrete states -/

/-- The wall test of `at`: the two early returns. -/
def inWall (pos : Vec) : Prop :=
  (cellOf pos.Y < boundary ∨ openOrdGridSize - boundary < cellOf pos.Y) ∨
    (cellOf pos.X < boundary ∨ openOrdGridSize - boundary < cellOf pos.X)

instance (pos : Vec) : Decidable (inWall pos) := by unfold inWall; infer_instance

/-- The zero value of `densityGrid`. -/
def densityGrid.zero : densityGrid :=
  ⟨fun _ _ => 0, fun _ _ => 0, fun _ _ => openOrdQueue.zero⟩

/-- A node at position `p` (and nothing else set). -/
def nodeAt (p : Vec) : openOrdNode := ⟨0, false, p, p, 0⟩

/-! ## The kernel window -/

/-- The body of the loops of `coarseAdd` (`op` is `+`) and `coarseSub` (`op` is `-`). -/
def cellStep (op : ℚ → ℚ → ℚ) (y x i j : Int) (m : Mem) : Outcome Mem :=
  if inGrid (y + i) ∧ inGrid (x + j) then
    ⟨setDensity m (y + i) (x + j) (op (m.grid.density (y + i) (x + j)) (m.grid.fallOff i j)), none⟩
  else ⟨m, some Panic.indexOutOfRange⟩

/-- The two nested loops of `coarseAdd` and `coarseSub`. -/
def windowLoop (op : ℚ → ℚ → ℚ) (y x : Int) (m : Mem) : Outcome Mem :=
  forLoop 0 (openOrdRadius * 2) (fun i m1 =>
    forLoop 0 (openOrdRadius * 2) (fun j m2 => cellStep op y x i j m2) m1) m

/-- The state after `k` columns of row `i` of the window have been updated. -/
def fillRow (op : ℚ → ℚ → ℚ) (y x i : Int) (k : Nat) (m : Mem) : Mem :=
  { m with grid := { m.grid with
      density := fun r c =>
        if r = y + i ∧ x ≤ c ∧ c < x + k then op (m.grid.density r c) (m.grid.fallOff i (c - x))
        else m.grid.density r c } }

/-- The state after `k` full rows of the window have been updated. -/
def fillWindow (op : ℚ → ℚ → ℚ) (y x : Int) (k : Nat) (m : Mem) : Mem :=
  { m with grid := { m.grid with
      density := fun r c =>
        if (y ≤ r ∧ r < y + k) ∧ x ≤ c ∧ c < x + (openOrdRadius * 2 + 1) then
          op (m.grid.density r c) (m.grid.fallOff (r - y) (c - x))
        else m.grid.density r c } }

/-- The kernel window with origin `(x, y)` lies inside the grid. -/
def originWindowInGrid (y x : Int) : Prop :=
  (0 ≤ x ∧ x + openOrdRadius * 2 < openOrdGridSize) ∧
    (0 ≤ y ∧ y + openOrdRadius * 2 < openOrdGridSize)

/-- The kernel window of node `n`, placed at its `addPos`, lies inside the grid. -/
def windowInGrid (m : Mem) (n : Ptr) : Prop :=
  originWindowInGrid (cellOf (m.nodes n).addPos.Y - openOrdRadius)
    (cellOf (m.nodes n).addPos.X - openOrdRadius)

/-- The kernel footprint of node `n` at cell `(r, c)`: `fallOff[r-cy+R][c-cx+R]` within `R` cells
of the node's cell `(cx, cy)` in both axes, 0 elsewhere. -/
def footprint (m : Mem) (n : Ptr) (r c : Int) : ℚ :=
  if |r - cellOf (m.nodes n).addPos.Y| ≤ openOrdRadius
      ∧ |c - cellOf (m.nodes n).addPos.X| ≤ openOrdRadius then
    m.grid.fallOff (r - cellOf (m.nodes n).addPos.Y + openOrdRadius)
      (c - cellOf (m.nodes n).addPos.X + openOrdRadius)
  else 0

/-! ## Drivers working at coarse resolution -/

/-- One step of a driver working at coarse resolution. -/
inductive CoarseOp where
  /-- The call `add(n, false)`. -/
  | add (n : Ptr)
  /-- The call `sub(n, false, fineFirstAdd, false)`. -/
  | sub (n : Ptr) (fineFirstAdd : Bool)
  /-- The position change `n.addPos = q`. -/
  | move (n : Ptr) (q : Vec)

/-- The memory, the nodes currently placed on the coarse grid, and the panic that stopped the
driver, if any. -/
structure CoarseState where
  mem : Mem
  placed : List Ptr
  panic : Option Panic

/-- One step of the driver; nothing runs after a panic. -/
def CoarseOp.run (s : CoarseState) (op : CoarseOp) : CoarseState :=
  match s.panic with
  | some _ => s
  | none =>
    match op with
    | CoarseOp.add n =>
      ⟨(densityGrid.add s.mem n false 0).state, n :: s.placed,
        (densityGrid.add s.mem n false 0).panic⟩
    | CoarseOp.sub n fineFirstAdd =>
      ⟨(densityGrid.sub s.mem n false fineFirstAdd false).state, s.placed.erase n,
        (densityGrid.sub s.mem n false fineFirstAdd false).panic⟩
    | CoarseOp.move n q => ⟨setAddPos s.mem n q, s.placed, none⟩

def runCoarse (s : CoarseState) (ops : List CoarseOp) : CoarseState := ops.foldl CoarseOp.run s

/-- The step respects the per-node lifecycle: a node is added only when it is not placed and
its window is inside the grid, removed only when it is placed, and moved only when it is not
placed. -/
def CoarseOp.follows (s : CoarseState) : CoarseOp → Prop
  | CoarseOp.add n => n ∉ s.placed ∧ windowInGrid s.mem n
  | CoarseOp.sub n _ => n ∈ s.placed
  | CoarseOp.move n _ => n ∉ s.placed

/-- Every step of the sequence respects the per-node lifecycle. -/
def followsLifecycle (s : CoarseState) : List CoarseOp → Prop
  | [] => True
  | op :: ops => op.follows s ∧ followsLifecycle (op.run s) ops

/-- The sum, over the placed nodes, of their footprints at cell `(r, c)`. -/
def footprintSum (m : Mem) (placed : List Ptr) (r c : Int) : ℚ :=
  (placed.map (fun n => footprint m n r c)).sum

/-- What holds of the driver state between steps that respect the lifecycle. -/
def CoarseInv (s : CoarseState) : Prop :=
  s.panic = none ∧ s.placed.Nodup ∧ (∀ n ∈ s.placed, windowInGrid s.mem n) ∧
    ∀ r c, inGrid r → inGrid c → s.mem.grid.density r c = footprintSum s.mem s.placed r c

/-! ## Drivers working at fine resolution -/

/-- One step of a driver working at fine resolution. -/
inductive FineOp where
  /-- The call `add(n, true)`. -/
  | add (n : Ptr) (grow : Nat)
  /-- The call `sub(n, firstAdd, false, true)`. -/
  | sub (n : Ptr) (firstAdd : Bool)
  /-- The position change `n.addPos = q`. -/
  | move (n : Ptr) (q : Vec)

/-- The memory, the nodes currently placed in the fine bins, and the panic that stopped the
driver, if any. -/
structure FineState where
  mem : Mem
  placed : List Ptr
  panic : Option Panic

/-- One step of the driver; nothing runs after a panic. -/
def FineOp.run (s : FineState) (op : FineOp) : FineState :=
  match s.panic with
  | some _ => s
  | none =>
    match op with
    | FineOp.add n grow =>
      ⟨(densityGrid.add s.mem n true grow).state, n :: s.placed,
        (densityGrid.add s.mem n true grow).panic⟩
    | FineOp.sub n firstAdd =>
      ⟨(densityGrid.sub s.mem n firstAdd false true).state, s.placed.erase n,
        (densityGrid.sub s.mem n firstAdd false true).panic⟩
    | FineOp.move n q => ⟨setAddPos s.mem n q, s.placed, none⟩

/-- One call made by the driver on the grid, or one position change of a node. -/
inductive GridOp where
  /-- The call `init()`. -/
  | init
  /-- The call `add(n, fine)`. -/
  | add (n : Ptr) (fine : Bool) (grow : Nat)
  /-- The call `sub(n, firstAdd, fineFirstAdd, fine)`. -/
  | sub (n : Ptr) (firstAdd fineFirstAdd fine : Bool)
  /-- The position change `n.addPos = q`. -/
  | move (n : Ptr) (q : Vec)

/-- The memory after one call, whether it completed or stopped on a panic. -/
def GridOp.run (m : Mem) : GridOp → Mem
  | GridOp.init => { m with grid := densityGrid.init m.grid }
  | GridOp.add n fine grow => (densityGrid.add m n fine grow).state
  | GridOp.sub n firstAdd fineFirstAdd fine =>
    (densityGrid.sub m n firstAdd fineFirstAdd fine).state
  | GridOp.move n q => setAddPos m n q

def runGrid (m : Mem) (ops : List GridOp) : Mem := ops.foldl GridOp.run m

/-- Every bin is a queue that represents some list of nodes. -/
def BinsWf (m : Mem) : Prop := ∀ r c, ∃ l, Represents (m.grid.bins r c) l

/-! ## Concrete states -/

/-- The weight `init` stores at `fallOff[i+R][j+R]`. -/
def kernelWeight (i j : Int) : ℚ :=
  ((openOrdRadius : ℚ) - |(i : ℚ)| / (openOrdRadius : ℚ)) *
    ((openOrdRadius : ℚ) - |(j : ℚ)| / (openOrdRadius : ℚ))

/-- The kernel after `k` full rows have been written by `init`. -/
def initRows (k : Nat) (g : densityGrid) : densityGrid :=
  { g with fallOff := fun r c =>
      if (0 ≤ r ∧ r < k) ∧ 0 ≤ c ∧ c < openOrdRadius * 2 + 1 then
        kernelWeight (r - openOrdRadius) (c - openOrdRadius)
      else g.fallOff r c }

/-- The kernel after `k` entries of row `i + R` have been written by `init`. -/
def initRow (i : Int) (k : Nat) (g : densityGrid) : densityGrid :=
  { g with fallOff := fun r c =>
      if r = i + openOrdRadius ∧ 0 ≤ c ∧ c < k then
        kernelWeight (r - openOrdRadius) (c - openOrdRadius)
      else g.fallOff r c }

/-- An initialised, empty grid in which every node sits at position `p`. -/
def memAt (p : Vec) : Mem := ⟨densityGrid.init densityGrid.zero, fun _ => nodeAt p⟩

/-- Node 0 placed in the fine bins at (0, 0), its `addPos` then changed to (4, 0). -/
def movedAfterFineAdd : Mem :=
  setAddPos (densityGrid.add (memAt ⟨0, 0⟩) 0 true 0).state 0 ⟨4, 0⟩

/-- Node 0 placed on the coarse grid at (0, 0), its `addPos` then changed to (4, 0). -/
def movedAfterCoarseAdd : Mem :=
  setAddPos (densityGrid.add (memAt ⟨0, 0⟩) 0 false 0).state 0 ⟨4, 0⟩

/-- The panic, if any, that a result of `dequeue` stands for. -/
def panicOf (r : Except Panic (Option Ptr)) : Option Panic :=
  match r with
  | Except.ok _ => none
  | Except.error e => some e

/-- The representation invariant of the queue: `0 <= head <= len(data) <= cap(data)`, and
`head = len(data)` only when both are 0. -/
def QueueWf (q : openOrdQueue) : Prop :=
  0 ≤ q.head ∧ q.head ≤ q.data.length ∧ q.data.length ≤ q.cap ∧
    (q.head = q.data.length → q.head = 0 ∧ q.data.length = 0)

/-- The zero grid with one queue placed at `bins[500][500]`. -/
def gridWithBin (q : openOrdQueue) : densityGrid :=
  { densityGrid.zero with bins := fun r c => if r = 500 ∧ c = 500 then q else openOrdQueue.zero }

/-- Node 0 at (1,0), every other node at (0,3). -/
def twoNodes : Ptr → openOrdNode := fun p => if p = 0 then nodeAt ⟨1, 0⟩ else nodeAt ⟨0, 3⟩

/-! ## The queue -/

theorem represents_empty (c : Nat) : Represents ⟨0, [], c⟩ [] :=
  ⟨0, by simp, by simp, by simp⟩

theorem Represents.length_eq {q : openOrdQueue} {l : List Ptr} (h : Represents q l) :
    (q.data.length : Int) = q.head + l.length := by
  obtain ⟨k, hk, hle, hd⟩ := h
  have := congrArg List.length hd
  simp at this
  omega

theorem Represents.slice {q : openOrdQueue} {l : List Ptr} (h : Represents q l) :
    q.slice = Except.ok (l.map some) := by
  obtain ⟨k, hk, hle, hd⟩ := h
  simp [openOrdQueue.slice, hk, hle, hd]

theorem Represents.len {q : openOrdQueue} {l : List Ptr} (h : Represents q l) :
    q.len = l.length := by
  have := h.length_eq
  simp [openOrdQueue.len]; omega

theorem Represents.reset (q : openOrdQueue) : Represents q.reset [] :=
  ⟨0, by simp [openOrdQueue.reset], by simp, by simp [openOrdQueue.reset]⟩

theorem goAppend_fst (d : List (Option Ptr)) (c : Nat) (x : Option Ptr) (g : Nat) :
    (goAppend d c x g).1 = d ++ [x] := by
  unfold goAppend; split <;> rfl

theorem Represents.enqueue {q : openOrdQueue} {l : List Ptr} (h : Represents q l)
    (n : Ptr) (g : Nat) :
    (q.enqueue (some n) g).panic = none ∧ Represents (q.enqueue (some n) g).state (l ++ [n]) := by
  have hlen := h.length_eq
  obtain ⟨k, hk, hle, hd⟩ := h
  by_cases hc : q.data.length = q.cap ∧ q.head > 0
  · have h1 : q.head ≤ (q.data.length : Int) := by omega
    have h2 : 0 ≤ q.len ∧ q.len ≤ (q.cap : Int) := by
      simp only [openOrdQueue.len]; omega
    have h3 : q.len.toNat = (List.drop k q.data).length := by
      simp only [openOrdQueue.len, List.length_drop]; omega
    dsimp only [openOrdQueue.enqueue]
    rw [if_pos hc, if_pos h1, if_pos h2]
    refine ⟨rfl, 0, rfl, Nat.zero_le _, ?_⟩
    simp only [goAppend_fst, hk, Int.toNat_ofNat, h3, List.drop_zero, List.take_left, hd]
    simp
  · dsimp only [openOrdQueue.enqueue]
    rw [if_neg hc]
    refine ⟨rfl, k, hk, ?_, ?_⟩
    · simp only [goAppend_fst, List.length_append]; omega
    · simp only [goAppend_fst]
      rw [List.drop_append_of_le_length hle, hd]; simp

theorem Represents.dequeue {q : openOrdQueue} {l : List Ptr} (h : Represents q l) :
    q.dequeue.2 = specDequeue l ∧ Represents q.dequeue.1 (l.drop 1) := by
  have hlen := h.length_eq
  obtain ⟨k, hk, hle, hd⟩ := h
  cases l with
  | nil =>
    have h0 : q.len = 0 := by simp [openOrdQueue.len] at hlen ⊢; omega
    dsimp only [openOrdQueue.dequeue]
    rw [if_pos h0]
    exact ⟨rfl, k, hk, hle, hd⟩
  | cons a t =>
    have hne : ¬ q.len = 0 := by simp [openOrdQueue.len] at hlen ⊢; omega
    have hlt : k < q.data.length := by simp at hlen; omega
    have hr : 0 ≤ q.head ∧ q.head < (q.data.length : Int) := by omega
    have hget : q.data.getD q.head.toNat none = some a := by
      have h1 : (q.data.drop k)[0]? = some (some a) := by rw [hd]; simp
      rw [List.getElem?_drop] at h1
      simp only [Nat.add_zero] at h1
      simp [hk, List.getD_eq_getElem?_getD, h1]
    have hdrop : List.drop (k + 1) q.data = t.map some := by
      have := congrArg (List.drop 1) hd
      simpa [List.drop_drop, Nat.add_comm] using this
    dsimp only [openOrdQueue.dequeue]
    rw [if_neg hne, if_pos hr, hget]
    split
    · rename_i h0
      refine ⟨rfl, ?_⟩
      have : t = [] := by
        simp [openOrdQueue.len] at h0 hlen
        have : t.length = 0 := by omega
        exact List.length_eq_zero.mp this
      subst this
      exact Represents.reset _
    · refine ⟨rfl, k + 1, by simp [hk], by simp; omega, ?_⟩
      simp only [List.drop_one, List.tail_cons]
      rw [← hdrop]
      simp [hk, List.drop_set]

theorem represents_step {q : openOrdQueue} {l : List Ptr} (h : Represents q l) (op : QueueOp) :
    Represents (op.run q) (op.specRun l) := by
  cases op with
  | enqueue n g => exact (h.enqueue n g).2
  | dequeue => exact h.dequeue.2
  | reset => exact Represents.reset q

theorem Represents.runOps {q : openOrdQueue} {l : List Ptr} (h : Represents q l)
    (ops : List QueueOp) : Represents (runOps q ops) (specOps l ops) := by
  induction ops generalizing q l with
  | nil => exact h
  | cons op ops ih => exact ih (represents_step h op)

theorem Represents.enqueueAll {q : openOrdQueue} {l : List Ptr} (h : Represents q l)
    (es : List (Ptr × Nat)) : Represents (enqueueAll q es) (l ++ es.map Prod.fst) := by
  induction es generalizing q l with
  | nil => simpa [OpenOrd.enqueueAll] using h
  | cons e es ih =>
    have := ih (h.enqueue e.1 e.2).2
    simpa [OpenOrd.enqueueAll] using this

theorem Represents.dequeueN {q : openOrdQueue} {l : List Ptr} (h : Represents q l) :
    (dequeueN l.length q).2 = l.map (fun a => Except.ok (some a)) ∧
      Represents (dequeueN l.length q).1 [] := by
  induction l generalizing q with
  | nil => exact ⟨rfl, h⟩
  | cons a t ih =>
    have hd := h.dequeue
    have := ih (by simpa using hd.2)
    refine ⟨?_, this.2⟩
    simp only [List.length_cons, OpenOrd.dequeueN, List.map_cons, this.1, hd.1, specDequeue]

/-- C4: FIFO law. Nodes enqueued into an empty queue (of any capacity, whatever capacity the
runtime picks when it reallocates), with no dequeue in between, are returned by the next
dequeues in the order they were enqueued, and one further dequeue panics with
"queue: empty queue". -/
theorem fifo_law (c : Nat) (es : List (Ptr × Nat)) :
    (dequeueN es.length (enqueueAll ⟨0, [], c⟩ es)).2
        = es.map (fun e => Except.ok (some e.1)) ∧
      (dequeueN es.length (enqueueAll ⟨0, [], c⟩ es)).1.dequeue.2
        = Except.error Panic.emptyQueue := by
  have h := (represents_empty c).enqueueAll es
  simp only [List.nil_append] at h
  have h2 := h.dequeueN
  simp only [List.length_map, List.map_map] at h2
  exact ⟨h2.1, h2.2.dequeue.1⟩

/-- C5: the head/data/capacity queue refines the plain list FIFO. After any interleaving of
enqueue, dequeue and reset from an empty queue of any capacity, with any capacity chosen at
each reallocation, `slice()` is the abstract list, `len()` its length, `dequeue` returns its
first element and panics with "queue: empty queue" exactly when it is empty, and `enqueue`
does not panic. -/
theorem queue_refines_list (c : Nat) (ops : List QueueOp) :
    (runOps ⟨0, [], c⟩ ops).slice = Except.ok ((specOps [] ops).map some) ∧
      (runOps ⟨0, [], c⟩ ops).len = (specOps [] ops).length ∧
      (runOps ⟨0, [], c⟩ ops).dequeue.2 = specDequeue (specOps [] ops) ∧
      ((runOps ⟨0, [], c⟩ ops).dequeue.2 = Except.error Panic.emptyQueue
        ↔ specOps [] ops = []) ∧
      ∀ n g, ((runOps ⟨0, [], c⟩ ops).enqueue (some n) g).panic = none := by
  have h := (represents_empty c).runOps ops
  refine ⟨h.slice, h.len, h.dequeue.1, ?_, fun n g => (h.enqueue n g).1⟩
  rw [h.dequeue.1]
  cases specOps [] ops <;> simp [specDequeue]

/-! ## Grid coordinates -/

theorem cellOf_eq (v : ℚ) (k : Int) (hk : 0 ≤ k) (h1 : 4 * (k : ℚ) ≤ v + 2000.5)
    (h2 : v + 2000.5 < 4 * ((k : ℚ) + 1)) : cellOf v = k := by
  have hk' : (0 : ℚ) ≤ (k : ℚ) := by exact_mod_cast hk
  have e : (v + ((openOrdView / 2 : Int) : ℚ) + 0.5) * openOrdViewToGrid = (v + 2000.5) / 4 := by
    simp only [openOrdView, openOrdViewToGrid, openOrdGridSize]
    norm_num
    ring
  unfold cellOf goInt
  rw [e, if_pos (by linarith), Int.floor_eq_iff]
  constructor <;> linarith

theorem cellOf_0 : cellOf 0 = 500 := cellOf_eq 0 500 (by norm_num) (by norm_num) (by norm_num)
theorem cellOf_1 : cellOf 1 = 500 := cellOf_eq 1 500 (by norm_num) (by norm_num) (by norm_num)
theorem cellOf_4 : cellOf 4 = 501 := cellOf_eq 4 501 (by norm_num) (by norm_num) (by norm_num)
theorem cellOf_1960 : cellOf 1960 = 990 :=
  cellOf_eq 1960 990 (by norm_num) (by norm_num) (by norm_num)
theorem at_wall (m : Mem) (pos : Vec) (fine : Bool) (h : inWall pos) :
    densityGrid.at m pos fine = Except.ok 1e4 := by
  dsimp only [densityGrid.at]
  rcases h with h | h
  · rw [if_pos h]
  · by_cases hy : cellOf pos.Y < boundary ∨ openOrdGridSize - boundary < cellOf pos.Y
    · rw [if_pos hy]
    · rw [if_neg hy, if_pos h]

theorem at_coarse (m : Mem) (pos : Vec) (h : ¬ inWall pos) :
    densityGrid.at m pos false
      = Except.ok (m.grid.density (cellOf pos.Y) (cellOf pos.X)
          * m.grid.density (cellOf pos.Y) (cellOf pos.X)) := by
  simp only [inWall, not_or, boundary, openOrdGridSize] at h
  have hg : inGrid (cellOf pos.Y) ∧ inGrid (cellOf pos.X) := by
    simp only [inGrid, openOrdGridSize]; omega
  dsimp only [densityGrid.at]
  rw [if_neg (by simp only [boundary, openOrdGridSize]; omega),
    if_neg (by simp only [boundary, openOrdGridSize]; omega)]
  simp [hg]

/-! ## Unrolling the neighbourhood loops -/

theorem forCount_three {σ : Type} (body : Int → σ → Outcome σ) (lo : Int) (s : σ) :
    forCount body lo 3 s =
      match (body lo s).panic with
      | none =>
        match (body (lo + 1) (body lo s).state).panic with
        | none => body (lo + 2) (body (lo + 1) (body lo s).state).state
        | some e => ⟨(body (lo + 1) (body lo s).state).state, some e⟩
      | some e => ⟨(body lo s).state, some e⟩ := by
  have e1 : forCount body lo 1 s = body lo s := by
    show body (lo + ((0 : Nat) : Int)) s = body lo s
    rw [Nat.cast_zero, add_zero]
  have e2 : forCount body lo 2 s =
      match (forCount body lo 1 s).panic with
      | none => body (lo + ((1 : Nat) : Int)) (forCount body lo 1 s).state
      | some e => ⟨(forCount body lo 1 s).state, some e⟩ := rfl
  have e3 : forCount body lo 3 s =
      match (forCount body lo 2 s).panic with
      | none => body (lo + ((2 : Nat) : Int)) (forCount body lo 2 s).state
      | some e => ⟨(forCount body lo 2 s).state, some e⟩ := rfl
  rw [e3, e2, e1]
  simp only [Nat.cast_one, Nat.cast_ofNat]
  cases h1 : (body lo s).panic with
  | some e => rfl
  | none =>
    cases h2 : (body (lo + 1) (body lo s).state).panic with
    | some e => rfl
    | none => rfl

/-! ## Loops -/

theorem coarseAdd_eq (m : Mem) (n : Ptr) :
    densityGrid.coarseAdd m n =
      if cellOf (m.nodes n).addPos.X - openOrdRadius < 0
          ∨ openOrdGridSize ≤ cellOf (m.nodes n).addPos.X - openOrdRadius then
        ⟨m, some Panic.nodeOutsideGrid⟩
      else if cellOf (m.nodes n).addPos.Y - openOrdRadius < 0
          ∨ openOrdGridSize ≤ cellOf (m.nodes n).addPos.Y - openOrdRadius then
        ⟨m, some Panic.nodeOutsideGrid⟩
      else windowLoop (fun a b => a + b) (cellOf (m.nodes n).addPos.Y - openOrdRadius)
        (cellOf (m.nodes n).addPos.X - openOrdRadius) (setSubPos m n) := rfl

theorem coarseSub_eq (m : Mem) (n : Ptr) :
    densityGrid.coarseSub m n =
      windowLoop (fun a b => a - b) (cellOf (m.nodes n).addPos.Y - openOrdRadius)
        (cellOf (m.nodes n).addPos.X - openOrdRadius) m := rfl

theorem mem_ext {m m' : Mem} (h1 : m.nodes = m'.nodes) (h2 : m.grid.fallOff = m'.grid.fallOff)
    (h3 : m.grid.bins = m'.grid.bins) (h4 : ∀ r c, m.grid.density r c = m'.grid.density r c) :
    m = m' := by
  obtain ⟨⟨f, d, b⟩, ns⟩ := m
  obtain ⟨⟨f', d', b'⟩, ns'⟩ := m'
  simp only at h1 h2 h3 h4
  have : d = d' := by funext r c; exact h4 r c
  subst h1 h2 h3 this
  rfl

theorem rowLoop_ok (op : ℚ → ℚ → ℚ) (y x i : Int) (hy : inGrid (y + i)) (k : Nat)
    (hx : 0 ≤ x ∧ x + k ≤ openOrdGridSize) (m : Mem) :
    forCount (fun j m2 => cellStep op y x i j m2) 0 k m = ⟨fillRow op y x i k m, none⟩ := by
  induction k with
  | zero =>
    simp only [forCount]
    congr 1
    refine mem_ext ?_ ?_ ?_ ?_ <;> try rfl
    intro r c
    simp only [fillRow]
    rw [if_neg]
    simp only [Nat.cast_zero]
    omega
  | succ k ih =>
    have hx' : 0 ≤ x ∧ x + k ≤ openOrdGridSize := by
      refine ⟨hx.1, ?_⟩
      have := hx.2
      push_cast at this
      omega
    simp only [forCount, ih hx']
    have hg : inGrid (y + i) ∧ inGrid (x + (0 + (k : Int))) := by
      refine ⟨hy, ?_⟩
      have := hx.2
      simp only [inGrid] at *
      push_cast at this
      omega
    simp only [cellStep, if_pos hg]
    congr 1
    refine mem_ext ?_ ?_ ?_ ?_ <;> try rfl
    intro r c
    simp only [fillRow, setDensity]
    by_cases h1 : r = y + i ∧ c = x + (0 + (k : Int))
    · obtain ⟨hr, hc⟩ := h1
      subst hr hc
      rw [if_pos ⟨rfl, rfl⟩, if_neg (by omega), if_pos (by push_cast; omega)]
      congr 2
      omega
    · rw [if_neg h1]
      by_cases h2 : r = y + i ∧ x ≤ c ∧ c < x + (k : Int)
      · rw [if_pos h2, if_pos (by push_cast; omega)]
      · rw [if_neg h2, if_neg (by push_cast; omega)]

theorem toNat_window : (openOrdRadius * 2 + 1 - 0).toNat = 21 := rfl

theorem rowsLoop_ok (op : ℚ → ℚ → ℚ) (y x : Int) (hx : 0 ≤ x ∧ x + 21 ≤ openOrdGridSize)
    (k : Nat) (hy : 0 ≤ y ∧ y + k ≤ openOrdGridSize) (m : Mem) :
    forCount (fun i m1 =>
        forLoop 0 (openOrdRadius * 2) (fun j m2 => cellStep op y x i j m2) m1) 0 k m
      = ⟨fillWindow op y x k m, none⟩ := by
  induction k with
  | zero =>
    simp only [forCount]
    congr 1
    refine mem_ext ?_ ?_ ?_ ?_ <;> try rfl
    intro r c
    simp only [fillWindow]
    rw [if_neg]
    simp only [Nat.cast_zero]
    omega
  | succ k ih =>
    have hy' : 0 ≤ y ∧ y + k ≤ openOrdGridSize := by
      refine ⟨hy.1, ?_⟩
      have := hy.2
      push_cast at this
      omega
    have hg : inGrid (y + (0 + (k : Int))) := by
      have := hy.2
      simp only [inGrid] at *
      push_cast at this
      omega
    rw [forCount, ih hy']
    simp only []
    rw [forLoop, toNat_window, rowLoop_ok op y x (0 + (k : Int)) hg 21 (by simpa using hx)]
    congr 1
    refine mem_ext ?_ ?_ ?_ ?_ <;> try rfl
    intro r c
    simp only [fillRow, fillWindow, openOrdRadius]
    by_cases h1 : r = y + (0 + (k : Int)) ∧ x ≤ c ∧ c < x + ((21 : Nat) : Int)
    · rw [if_pos h1, if_neg (by omega), if_pos (by push_cast; push_cast at h1; omega)]
      congr 2
      omega
    · rw [if_neg h1]
      by_cases h2 : (y ≤ r ∧ r < y + (k : Int)) ∧ x ≤ c ∧ c < x + (10 * 2 + 1)
      · rw [if_pos h2, if_pos (by push_cast; omega)]
      · rw [if_neg h2, if_neg (by push_cast; push_cast at h1; omega)]

theorem windowLoop_ok (op : ℚ → ℚ → ℚ) (y x : Int) (h : originWindowInGrid y x) (m : Mem) :
    windowLoop op y x m = ⟨fillWindow op y x 21 m, none⟩ := by
  simp only [originWindowInGrid, openOrdRadius, openOrdGridSize] at h
  simp only [windowLoop, forLoop, toNat_window]
  exact rowsLoop_ok op y x (by simp only [openOrdGridSize]; omega) 21
    (by simp only [openOrdGridSize]; push_cast; omega) m

theorem forCount_invariant {σ : Type} (P : σ → Prop) (body : Int → σ → Outcome σ)
    (hb : ∀ i s, P s → P (body i s).state) (lo : Int) (n : Nat) (s : σ) (hs : P s) :
    P (forCount body lo n s).state := by
  induction n with
  | zero => exact hs
  | succ n ih =>
    simp only [forCount]
    cases hp : (forCount body lo n s).panic with
    | some e => exact ih
    | none => exact hb _ _ ih

/-- Whatever its outcome, the window loop changes only the density array. -/
theorem windowLoop_frame (op : ℚ → ℚ → ℚ) (y x : Int) (m : Mem) :
    (windowLoop op y x m).state.nodes = m.nodes
      ∧ (windowLoop op y x m).state.grid.bins = m.grid.bins
      ∧ (windowLoop op y x m).state.grid.fallOff = m.grid.fallOff := by
  simp only [windowLoop, forLoop]
  refine forCount_invariant (fun s : Mem => s.nodes = m.nodes ∧ s.grid.bins = m.grid.bins
    ∧ s.grid.fallOff = m.grid.fallOff) _ ?_ _ _ _ ?_
  · intro i s hs
    refine forCount_invariant (fun s : Mem => s.nodes = m.nodes ∧ s.grid.bins = m.grid.bins
      ∧ s.grid.fallOff = m.grid.fallOff) _ ?_ _ _ _ ?_
    · intro j s' hs'
      simp only [cellStep]
      split
      · exact hs'
      · exact hs'
    · exact hs
  · exact ⟨rfl, rfl, rfl⟩

theorem windowInGrid_origin {m : Mem} {n : Ptr} (h : windowInGrid m n) :
    ¬ (cellOf (m.nodes n).addPos.X - openOrdRadius < 0
        ∨ openOrdGridSize ≤ cellOf (m.nodes n).addPos.X - openOrdRadius) ∧
      ¬ (cellOf (m.nodes n).addPos.Y - openOrdRadius < 0
        ∨ openOrdGridSize ≤ cellOf (m.nodes n).addPos.Y - openOrdRadius) := by
  simp only [windowInGrid, originWindowInGrid, openOrdRadius, openOrdGridSize] at *
  omega

theorem setSubPos_addPos (m : Mem) (n p : Ptr) :
    ((setSubPos m n).nodes p).addPos = (m.nodes p).addPos := by
  simp only [setSubPos]
  split
  · rename_i h; subst h; rfl
  · rfl

theorem coarseAdd_ok (m : Mem) (n : Ptr) (h : windowInGrid m n) :
    densityGrid.coarseAdd m n =
      ⟨fillWindow (fun a b => a + b) (cellOf (m.nodes n).addPos.Y - openOrdRadius)
        (cellOf (m.nodes n).addPos.X - openOrdRadius) 21 (setSubPos m n), none⟩ := by
  rw [coarseAdd_eq, if_neg (windowInGrid_origin h).1, if_neg (windowInGrid_origin h).2]
  exact windowLoop_ok _ _ _ h _

theorem coarseSub_ok (m : Mem) (n : Ptr) (h : windowInGrid m n) :
    densityGrid.coarseSub m n =
      ⟨fillWindow (fun a b => a - b) (cellOf (m.nodes n).addPos.Y - openOrdRadius)
        (cellOf (m.nodes n).addPos.X - openOrdRadius) 21 m, none⟩ := by
  rw [coarseSub_eq]
  exact windowLoop_ok _ _ _ h _

/-- The density after `fillWindow`, in terms of the footprint of the node placed there. -/
theorem fillWindow_density (op : ℚ → ℚ → ℚ) (m m0 : Mem) (n : Ptr) (r c : Int)
    (hf : m.grid.fallOff = m0.grid.fallOff) (hop : ∀ a, op a 0 = a) :
    (fillWindow op (cellOf (m0.nodes n).addPos.Y - openOrdRadius)
        (cellOf (m0.nodes n).addPos.X - openOrdRadius) 21 m).grid.density r c
      = op (m.grid.density r c) (footprint m0 n r c) := by
  simp only [fillWindow, footprint, openOrdRadius, hf, abs_le]
  by_cases hw : (cellOf (m0.nodes n).addPos.Y - 10 ≤ r
      ∧ r < cellOf (m0.nodes n).addPos.Y - 10 + ((21 : Nat) : Int))
      ∧ cellOf (m0.nodes n).addPos.X - 10 ≤ c ∧ c < cellOf (m0.nodes n).addPos.X - 10 + (10 * 2 + 1)
  · rw [if_pos hw, if_pos (by push_cast at hw; omega)]
    congr 2 <;> omega
  · rw [if_neg hw, if_neg (by push_cast at hw; omega), hop]

theorem coarseAdd_density (m : Mem) (n : Ptr) (h : windowInGrid m n) (r c : Int) :
    (densityGrid.coarseAdd m n).state.grid.density r c
      = m.grid.density r c + footprint m n r c := by
  rw [coarseAdd_ok m n h]
  exact fillWindow_density (fun a b => a + b) (setSubPos m n) m n r c rfl
    (fun a => add_zero a)

theorem coarseSub_density (m : Mem) (n : Ptr) (h : windowInGrid m n) (r c : Int) :
    (densityGrid.coarseSub m n).state.grid.density r c
      = m.grid.density r c - footprint m n r c := by
  rw [coarseSub_ok m n h]
  exact fillWindow_density (fun a b => a - b) m m n r c rfl (fun a => sub_zero a)

theorem coarseAdd_frame (m : Mem) (n : Ptr) :
    (densityGrid.coarseAdd m n).state.grid.bins = m.grid.bins
      ∧ (densityGrid.coarseAdd m n).state.grid.fallOff = m.grid.fallOff
      ∧ ∀ p, ((densityGrid.coarseAdd m n).state.nodes p).addPos = (m.nodes p).addPos := by
  rw [coarseAdd_eq]
  split
  · exact ⟨rfl, rfl, fun _ => rfl⟩
  · split
    · exact ⟨rfl, rfl, fun _ => rfl⟩
    · have := windowLoop_frame (fun a b => a + b)
        (cellOf (m.nodes n).addPos.Y - openOrdRadius)
        (cellOf (m.nodes n).addPos.X - openOrdRadius) (setSubPos m n)
      refine ⟨this.2.1, this.2.2, fun p => ?_⟩
      rw [this.1]
      exact setSubPos_addPos m n p

theorem coarseSub_frame (m : Mem) (n : Ptr) :
    (densityGrid.coarseSub m n).state.grid.bins = m.grid.bins
      ∧ (densityGrid.coarseSub m n).state.grid.fallOff = m.grid.fallOff
      ∧ (densityGrid.coarseSub m n).state.nodes = m.nodes := by
  rw [coarseSub_eq]
  have := windowLoop_frame (fun a b => a - b)
    (cellOf (m.nodes n).addPos.Y - openOrdRadius)
    (cellOf (m.nodes n).addPos.X - openOrdRadius) m
  exact ⟨this.2.1, this.2.2, this.1⟩

theorem footprint_congr (m m' : Mem) (n : Ptr) (hf : m'.grid.fallOff = m.grid.fallOff)
    (hp : (m'.nodes n).addPos = (m.nodes n).addPos) (r c : Int) :
    footprint m' n r c = footprint m n r c := by
  simp only [footprint, hf, hp]

theorem windowInGrid_congr (m m' : Mem) (n : Ptr)
    (hp : (m'.nodes n).addPos = (m.nodes n).addPos) : windowInGrid m' n ↔ windowInGrid m n := by
  simp only [windowInGrid, hp]

/-! ## The kernel -/

theorem grid_ext {g g' : densityGrid} (h1 : g.density = g'.density) (h2 : g.bins = g'.bins)
    (h3 : ∀ r c, g.fallOff r c = g'.fallOff r c) : g = g' := by
  obtain ⟨f, d, b⟩ := g
  obtain ⟨f', d', b'⟩ := g'
  simp only at h1 h2 h3
  have : f = f' := by funext r c; exact h3 r c
  subst h1 h2 this
  rfl

theorem initRow_ok (i : Int) (k : Nat) (g : densityGrid) :
    forCount (fun j g2 =>
        (⟨setFallOff g2 (i + openOrdRadius) (j + openOrdRadius)
          (((openOrdRadius : ℚ) - |(i : ℚ)| / (openOrdRadius : ℚ)) *
            ((openOrdRadius : ℚ) - |(j : ℚ)| / (openOrdRadius : ℚ))), none⟩ : Outcome densityGrid))
        (-openOrdRadius) k g
      = ⟨initRow i k g, none⟩ := by
  induction k with
  | zero =>
    simp only [forCount]
    congr 1
    refine grid_ext rfl rfl ?_
    intro r c
    simp only [initRow]
    rw [if_neg]
    simp only [Nat.cast_zero]
    omega
  | succ k ih =>
    rw [forCount, ih]
    simp only []
    congr 1
    refine grid_ext rfl rfl ?_
    intro r c
    simp only [initRow, setFallOff, openOrdRadius]
    by_cases h1 : r = i + 10 ∧ c = -10 + (k : Int) + 10
    · obtain ⟨hr, hc⟩ := h1
      subst hr hc
      rw [if_pos ⟨rfl, rfl⟩, if_pos (by push_cast; omega)]
      simp only [kernelWeight, openOrdRadius]
      congr 4 <;> push_cast <;> ring
    · rw [if_neg h1]
      by_cases h2 : r = i + 10 ∧ 0 ≤ c ∧ c < (k : Int)
      · rw [if_pos h2, if_pos (by push_cast; omega)]
      · rw [if_neg h2, if_neg (by push_cast; omega)]

theorem toNat_kernel : (openOrdRadius + 1 - -openOrdRadius).toNat = 21 := rfl

theorem initRows_ok (k : Nat) (g : densityGrid) :
    forCount (fun i g1 =>
      forLoop (-openOrdRadius) openOrdRadius (fun j g2 =>
        (⟨setFallOff g2 (i + openOrdRadius) (j + openOrdRadius)
          (((openOrdRadius : ℚ) - |(i : ℚ)| / (openOrdRadius : ℚ)) *
            ((openOrdRadius : ℚ) - |(j : ℚ)| / (openOrdRadius : ℚ))), none⟩ : Outcome densityGrid))
        g1) (-openOrdRadius) k g
      = ⟨initRows k g, none⟩ := by
  induction k with
  | zero =>
    simp only [forCount]
    congr 1
    refine grid_ext rfl rfl ?_
    intro r c
    simp only [initRows]
    rw [if_neg]
    simp only [Nat.cast_zero]
    omega
  | succ k ih =>
    rw [forCount, ih]
    simp only []
    rw [forLoop, toNat_kernel, initRow_ok]
    congr 1
    refine grid_ext rfl rfl ?_
    intro r c
    simp only [initRow, initRows, openOrdRadius]
    by_cases h1 : r = -10 + (k : Int) + 10 ∧ 0 ≤ c ∧ c < ((21 : Nat) : Int)
    · rw [if_pos h1, if_pos (by push_cast; push_cast at h1; omega)]
    · rw [if_neg h1]
      by_cases h2 : (0 ≤ r ∧ r < (k : Int)) ∧ 0 ≤ c ∧ c < 10 * 2 + 1
      · rw [if_pos h2, if_pos (by push_cast; omega)]
      · rw [if_neg h2, if_neg (by push_cast; push_cast at h1; omega)]

theorem init_eq (g : densityGrid) : densityGrid.init g = initRows 21 g := by
  simp only [densityGrid.init]
  rw [forLoop, toNat_kernel, initRows_ok]

theorem init_fallOff (g : densityGrid) (a b : Int) (ha : 0 ≤ a ∧ a ≤ 20) (hb : 0 ≤ b ∧ b ≤ 20) :
    (densityGrid.init g).fallOff a b = kernelWeight (a - 10) (b - 10) := by
  rw [init_eq]
  simp only [initRows, openOrdRadius]
  rw [if_pos (by push_cast; omega)]

theorem init_density (g : densityGrid) : (densityGrid.init g).density = g.density := by
  rw [init_eq]; rfl

theorem init_bins (g : densityGrid) : (densityGrid.init g).bins = g.bins := by
  rw [init_eq]; rfl

/-- C1 (fails on the code): in `at(pos, true)` the statement `d = v.X*v.X + v.Y*v.Y` overwrites
the accumulator, so the result is not the sum of the terms `1e-4/(d_r + 1e-50)`. With one node
at squared distance 1 the code returns `1 + 1e-4/(1 + 1e-50)`; with a second node at squared
distance 9 enqueued after it, the code returns `9 + 1e-4/(9 + 1e-50)`: the squared distance of
the last node scanned plus its term alone. -/
theorem at_fine_overwrites_accumulator :
    densityGrid.at ⟨gridWithBin ⟨0, [some 0], 1⟩, twoNodes⟩ ⟨0, 0⟩ true
        = Except.ok (1 + 1e-4 / (1 + 1e-50)) ∧
      densityGrid.at ⟨gridWithBin ⟨0, [some 0, some 1], 2⟩, twoNodes⟩ ⟨0, 0⟩ true
        = Except.ok (9 + 1e-4 / (9 + 1e-50)) := by
  have h3 : Int.toNat 3 = 3 := rfl
  constructor
  · simp only [densityGrid.at, cellOf_0, forLoop, boundary, openOrdGridSize]
    norm_num [h3, forCount_three, gridWithBin, densityGrid.zero, openOrdQueue.zero, inGrid,
      openOrdGridSize, openOrdQueue.slice, scanBin, twoNodes, nodeAt, Vec.Sub]
  · simp only [densityGrid.at, cellOf_0, forLoop, boundary, openOrdGridSize]
    norm_num [h3, forCount_three, gridWithBin, densityGrid.zero, openOrdQueue.zero, inGrid,
      openOrdGridSize, openOrdQueue.slice, scanBin, twoNodes, nodeAt, Vec.Sub]

/-- C6 as stated fails: a position mapping to column 990 = G-10 (row 500) is not a wall for the
code, whose test is `openOrdGridSize-boundary < x`; on the empty grid `at` returns 0 there. -/
theorem at_wall_margin_counterexample :
    ¬ ∀ (m : Mem) (pos : Vec) (fine : Bool),
        (cellOf pos.X < 10 ∨ openOrdGridSize - 10 ≤ cellOf pos.X
          ∨ cellOf pos.Y < 10 ∨ openOrdGridSize - 10 ≤ cellOf pos.Y) →
        densityGrid.at m pos fine = Except.ok 1e4 := by
  intro h
  have h1 := h ⟨densityGrid.zero, fun _ => nodeAt ⟨0, 0⟩⟩ ⟨1960, 0⟩ false
    (by simp [cellOf_1960, openOrdGridSize])
  rw [at_coarse _ _ (by simp [inWall, cellOf_1960, cellOf_0, boundary, openOrdGridSize])] at h1
  norm_num [densityGrid.zero] at h1

/-- C6 (amended): for every grid state, every value of `fine` and every position whose mapped
cell has `x < 10`, `x > G-10`, `y < 10` or `y > G-10` (G = 1000), `at(pos, fine)` returns the
wall constant 1e4, whatever the density array and the bins hold. -/
theorem at_wall_constant (m : Mem) (pos : Vec) (fine : Bool)
    (h : cellOf pos.X < 10 ∨ openOrdGridSize - 10 < cellOf pos.X
      ∨ cellOf pos.Y < 10 ∨ openOrdGridSize - 10 < cellOf pos.Y) :
    densityGrid.at m pos fine = Except.ok 1e4 := by
  apply at_wall
  simp only [inWall, boundary]
  tauto

theorem at_wall_constant_witness :
    (cellOf (2000 : ℚ) < 10 ∨ openOrdGridSize - 10 < cellOf (2000 : ℚ)
      ∨ cellOf (0 : ℚ) < 10 ∨ openOrdGridSize - 10 < cellOf (0 : ℚ)) ∧
    densityGrid.at (memAt ⟨0, 0⟩) ⟨2000, 0⟩ true = Except.ok 1e4 :=
  have h : cellOf (2000 : ℚ) = 1000 :=
    cellOf_eq 2000 1000 (by norm_num) (by norm_num) (by norm_num)
  ⟨by simp [h, openOrdGridSize],
    at_wall_constant (memAt ⟨0, 0⟩) ⟨2000, 0⟩ true (by simp [h, openOrdGridSize])⟩

theorem add_coarse (m : Mem) (n : Ptr) (grow : Nat) :
    densityGrid.add m n false grow = densityGrid.coarseAdd m n := by
  simp [densityGrid.add]

theorem sub_coarse (m : Mem) (n : Ptr) (fineFirstAdd : Bool) :
    densityGrid.sub m n false fineFirstAdd false = densityGrid.coarseSub m n := by
  simp [densityGrid.sub]

theorem sub_fine (m : Mem) (n : Ptr) (firstAdd : Bool) :
    densityGrid.sub m n firstAdd false true = densityGrid.fineSub m n := by
  simp [densityGrid.sub]

theorem windowInGrid_coarseAdd (m : Mem) (n p : Ptr) :
    windowInGrid (densityGrid.coarseAdd m n).state p ↔ windowInGrid m p :=
  windowInGrid_congr _ _ _ ((coarseAdd_frame m n).2.2 p)

/-- C2: over exact arithmetic, for a node whose kernel window lies inside the grid,
`add(n, false)` followed at once by `sub(n, false, fineFirstAdd, false)` completes, restores
every cell of the density array to its value before the add and leaves every bin unchanged. -/
theorem coarse_add_sub_round_trip (m : Mem) (n : Ptr) (grow : Nat) (fineFirstAdd : Bool)
    (h : windowInGrid m n) :
    (densityGrid.add m n false grow).panic = none ∧
      (densityGrid.sub (densityGrid.add m n false grow).state n false fineFirstAdd false).panic
        = none ∧
      (∀ r c, (densityGrid.sub (densityGrid.add m n false grow).state n false fineFirstAdd
          false).state.grid.density r c = m.grid.density r c) ∧
      (densityGrid.sub (densityGrid.add m n false grow).state n false fineFirstAdd
          false).state.grid.bins = m.grid.bins := by
  have h1 : windowInGrid (densityGrid.coarseAdd m n).state n := (windowInGrid_coarseAdd m n n).2 h
  rw [add_coarse, sub_coarse]
  refine ⟨by rw [coarseAdd_ok m n h], by rw [coarseSub_ok _ n h1], fun r c => ?_, ?_⟩
  · rw [coarseSub_density _ n h1, coarseAdd_density m n h,
      footprint_congr m _ n (coarseAdd_frame m n).2.1 ((coarseAdd_frame m n).2.2 n)]
    ring
  · rw [(coarseSub_frame _ n).1, (coarseAdd_frame m n).1]

theorem windowInGrid_memAt_origin (n : Ptr) : windowInGrid (memAt ⟨0, 0⟩) n := by
  simp [windowInGrid, originWindowInGrid, memAt, nodeAt, cellOf_0, openOrdRadius,
    openOrdGridSize]

theorem coarse_add_sub_round_trip_witness :
    windowInGrid (memAt ⟨0, 0⟩) 0 ∧
      ∀ r c, (densityGrid.sub (densityGrid.add (memAt ⟨0, 0⟩) 0 false 0).state 0 false false
          false).state.grid.density r c = (memAt ⟨0, 0⟩).grid.density r c :=
  ⟨windowInGrid_memAt_origin 0,
    (coarse_add_sub_round_trip (memAt ⟨0, 0⟩) 0 0 false (windowInGrid_memAt_origin 0)).2.2.1⟩

theorem memAt_nodes (p : Vec) (n : Ptr) : (memAt p).nodes n = nodeAt p := rfl

theorem memAt_fallOff (p : Vec) (a b : Int) (ha : 0 ≤ a ∧ a ≤ 20) (hb : 0 ≤ b ∧ b ≤ 20) :
    (memAt p).grid.fallOff a b = kernelWeight (a - 10) (b - 10) :=
  init_fallOff densityGrid.zero a b ha hb

theorem memAt_density (p : Vec) (r c : Int) : (memAt p).grid.density r c = 0 := by
  show (densityGrid.init densityGrid.zero).density r c = 0
  rw [init_density]; rfl

theorem memAt_bins (p : Vec) (r c : Int) : (memAt p).grid.bins r c = openOrdQueue.zero := by
  show (densityGrid.init densityGrid.zero).bins r c = openOrdQueue.zero
  rw [init_bins]; rfl

theorem footprint_memAt_origin (r c : Int) :
    footprint (memAt ⟨0, 0⟩) 0 r c
      = if |r - 500| ≤ 10 ∧ |c - 500| ≤ 10 then kernelWeight (r - 500) (c - 500) else 0 := by
  simp only [footprint, memAt_nodes, nodeAt, cellOf_0, openOrdRadius]
  split
  · rename_i h
    rw [memAt_fallOff _ _ _ (by simp only [abs_le] at h; omega)
      (by simp only [abs_le] at h; omega)]
    congr 1 <;> omega
  · rfl

theorem movedAfterCoarseAdd_density (r c : Int) :
    movedAfterCoarseAdd.grid.density r c = footprint (memAt ⟨0, 0⟩) 0 r c := by
  have h := coarseAdd_density (memAt ⟨0, 0⟩) 0 (windowInGrid_memAt_origin 0) r c
  simp only [movedAfterCoarseAdd, add_coarse, setAddPos, h, memAt_density, zero_add]

theorem movedAfterCoarseAdd_fallOff :
    movedAfterCoarseAdd.grid.fallOff = (memAt ⟨0, 0⟩).grid.fallOff := by
  simp only [movedAfterCoarseAdd, add_coarse, setAddPos, (coarseAdd_frame _ _).2.1]

theorem movedAfterCoarseAdd_addPos : (movedAfterCoarseAdd.nodes 0).addPos = ⟨4, 0⟩ := by
  simp [movedAfterCoarseAdd, setAddPos]

theorem windowInGrid_movedAfterCoarseAdd : windowInGrid movedAfterCoarseAdd 0 := by
  simp [windowInGrid, originWindowInGrid, movedAfterCoarseAdd_addPos, cellOf_0, cellOf_4,
    openOrdRadius, openOrdGridSize]

theorem footprint_movedAfterCoarseAdd (r c : Int) :
    footprint movedAfterCoarseAdd 0 r c
      = if |r - 500| ≤ 10 ∧ |c - 501| ≤ 10 then kernelWeight (r - 500) (c - 501) else 0 := by
  simp only [footprint, movedAfterCoarseAdd_addPos, movedAfterCoarseAdd_fallOff, cellOf_0,
    cellOf_4, openOrdRadius]
  split
  · rename_i h
    rw [memAt_fallOff _ _ _ (by simp only [abs_le] at h; omega)
      (by simp only [abs_le] at h; omega)]
    congr 1 <;> omega
  · rfl

theorem movedAfterFineAdd_addPos : (movedAfterFineAdd.nodes 0).addPos = ⟨4, 0⟩ := by
  simp [movedAfterFineAdd, setAddPos]

theorem movedAfterFineAdd_bins (r c : Int) :
    movedAfterFineAdd.grid.bins r c
      = if r = 500 ∧ c = 500 then ⟨0, [some 0], 1⟩ else openOrdQueue.zero := by
  simp only [movedAfterFineAdd, setAddPos, densityGrid.add, if_true, densityGrid.fineAdd,
    memAt_nodes, nodeAt, cellOf_0]
  rw [if_pos (by simp [inGrid, openOrdGridSize])]
  simp only [setBin, setSubPos, memAt_bins]
  split
  · simp [openOrdQueue.enqueue, openOrdQueue.zero, goAppend]
  · rfl

/-- C10 (fails on the code): `fineSub` and `coarseSub` compute the cell from `n.addPos`, not
from the `subPos` recorded by the last add. Node 0 is added at p = (0,0) (cell (500,500)) and
its `addPos` is then changed to q = (4,0) (cell (501,500)). The fine `sub` tries to dequeue
from the empty bin at q's cell: it panics and the bin at p's cell still holds the node. The
coarse `sub` subtracts the footprint from q's window: column 490 of p's window keeps its
weight 90 and column 511, outside p's window, goes to -90. -/
theorem sub_uses_new_position :
    (movedAfterFineAdd.nodes 0).subPos = ⟨0, 0⟩ ∧
      (densityGrid.sub movedAfterFineAdd 0 false false true).panic = some Panic.emptyQueue ∧
      ((densityGrid.sub movedAfterFineAdd 0 false false true).state.grid.bins 500 500).slice
        = Except.ok [some 0] ∧
      (movedAfterCoarseAdd.nodes 0).subPos = ⟨0, 0⟩ ∧
      (densityGrid.sub movedAfterCoarseAdd 0 false false false).state.grid.density 500 490 = 90 ∧
      (densityGrid.sub movedAfterCoarseAdd 0 false false false).state.grid.density 500 511
        = -90 := by
  refine ⟨?_, ?_, ?_, ?_, ?_, ?_⟩
  · simp only [movedAfterFineAdd, setAddPos, densityGrid.add, if_true, densityGrid.fineAdd,
      memAt_nodes, nodeAt, cellOf_0]
    rw [if_pos (by simp [inGrid, openOrdGridSize])]
    simp [setBin, setSubPos, memAt_nodes, nodeAt]
  · rw [sub_fine]
    simp only [densityGrid.fineSub, movedAfterFineAdd_addPos, cellOf_0, cellOf_4]
    rw [if_pos (by simp [inGrid, openOrdGridSize]), movedAfterFineAdd_bins, if_neg (by omega)]
    simp [openOrdQueue.dequeue, openOrdQueue.zero, openOrdQueue.len]
  · rw [sub_fine]
    simp only [densityGrid.fineSub, movedAfterFineAdd_addPos, cellOf_0, cellOf_4]
    rw [if_pos (by simp [inGrid, openOrdGridSize]), movedAfterFineAdd_bins 500 501,
      if_neg (by omega)]
    simp only [openOrdQueue.dequeue, openOrdQueue.zero, openOrdQueue.len, List.length_nil,
      Nat.cast_zero, sub_self, if_true, setBin]
    rw [if_neg (by omega), movedAfterFineAdd_bins 500 500, if_pos ⟨rfl, rfl⟩]
    simp [openOrdQueue.slice]
  · simp only [movedAfterCoarseAdd, add_coarse, coarseAdd_ok _ _ (windowInGrid_memAt_origin 0)]
    simp [setAddPos, fillWindow, setSubPos, memAt_nodes, nodeAt]
  · rw [sub_coarse, coarseSub_density _ _ windowInGrid_movedAfterCoarseAdd,
      movedAfterCoarseAdd_density, footprint_memAt_origin, footprint_movedAfterCoarseAdd]
    norm_num [kernelWeight, openOrdRadius, abs_le]
  · rw [sub_coarse, coarseSub_density _ _ windowInGrid_movedAfterCoarseAdd,
      movedAfterCoarseAdd_density, footprint_memAt_origin, footprint_movedAfterCoarseAdd]
    norm_num [kernelWeight, openOrdRadius, abs_le]

/-! ## Coarse density as a sum of footprints -/

theorem footprintSum_congr (m m' : Mem) (l : List Ptr) (r c : Int)
    (hf : m'.grid.fallOff = m.grid.fallOff)
    (hp : ∀ n ∈ l, (m'.nodes n).addPos = (m.nodes n).addPos) :
    footprintSum m' l r c = footprintSum m l r c := by
  simp only [footprintSum]
  congr 1
  apply List.map_congr_left
  intro n hn
  exact footprint_congr m m' n hf (hp n hn) r c

theorem setAddPos_other (m : Mem) (n p : Ptr) (q : Vec) (h : p ≠ n) :
    (setAddPos m n q).nodes p = m.nodes p := by
  simp [setAddPos, h]

theorem coarseInv_step {s : CoarseState} (hs : CoarseInv s) (op : CoarseOp)
    (hop : op.follows s) : CoarseInv (op.run s) := by
  obtain ⟨hp, hnd, hw, hd⟩ := hs
  cases op with
  | add n =>
    obtain ⟨hn, hwn⟩ := hop
    have hfr := coarseAdd_frame s.mem n
    simp only [CoarseOp.run, hp, add_coarse]
    refine ⟨by rw [coarseAdd_ok _ _ hwn], List.nodup_cons.mpr ⟨hn, hnd⟩, ?_, ?_⟩
    · intro p hpm
      rw [windowInGrid_coarseAdd]
      rcases List.mem_cons.mp hpm with h | h
      · rw [h]; exact hwn
      · exact hw p h
    · intro r c hr hc
      rw [coarseAdd_density _ _ hwn, hd r c hr hc,
        footprintSum_congr s.mem _ (n :: s.placed) r c hfr.2.1 (fun p _ => hfr.2.2 p)]
      simp only [footprintSum, List.map_cons, List.sum_cons]
      ring
  | sub n f =>
    have hn : n ∈ s.placed := hop
    have hwn := hw n hn
    have hfr := coarseSub_frame s.mem n
    simp only [CoarseOp.run, hp, sub_coarse]
    refine ⟨by rw [coarseSub_ok _ _ hwn], hnd.erase n, ?_, ?_⟩
    · intro p hpm
      rw [windowInGrid_congr s.mem _ p (by rw [hfr.2.2])]
      exact hw p (List.mem_of_mem_erase hpm)
    · intro r c hr hc
      rw [coarseSub_density _ _ hwn, hd r c hr hc,
        footprintSum_congr s.mem _ (s.placed.erase n) r c hfr.2.1 (fun p _ => by rw [hfr.2.2])]
      simp only [footprintSum]
      rw [← List.sum_map_erase (fun p => footprint s.mem p r c) hn]
      ring
  | move n q =>
    have hn : n ∉ s.placed := hop
    simp only [CoarseOp.run, hp]
    have hne : ∀ p ∈ s.placed, p ≠ n := fun p hpm h => hn (h ▸ hpm)
    refine ⟨rfl, hnd, ?_, ?_⟩
    · intro p hpm
      show windowInGrid (setAddPos s.mem n q) p
      rw [windowInGrid_congr s.mem (setAddPos s.mem n q) p
        (by rw [setAddPos_other _ _ _ _ (hne p hpm)])]
      exact hw p hpm
    · intro r c hr hc
      show (setAddPos s.mem n q).grid.density r c = footprintSum (setAddPos s.mem n q) s.placed r c
      rw [footprintSum_congr s.mem (setAddPos s.mem n q) s.placed r c rfl
        (fun p hpm => by rw [setAddPos_other _ _ _ _ (hne p hpm)])]
      exact hd r c hr hc

theorem CoarseInv.runCoarse {s : CoarseState} (hs : CoarseInv s) (ops : List CoarseOp)
    (h : followsLifecycle s ops) : CoarseInv (runCoarse s ops) := by
  induction ops generalizing s with
  | nil => exact hs
  | cons op ops ih => exact ih (coarseInv_step hs op h.1) h.2

/-- C3: coarse density is the sum of the footprints of the placed nodes. From an all-zero
density array, after every sequence of coarse operations that follows the per-node lifecycle
with every placement inside the grid, no operation has failed and each cell `density[r][c]`
is, over exact arithmetic, the sum over the currently placed nodes `n` of
`fallOff[r-cy(n)+R][c-cx(n)+R]` when `(r, c)` is within `R` cells of the node's cell in both
axes and 0 otherwise. -/
theorem coarse_density_is_footprint_sum (m : Mem) (ops : List CoarseOp)
    (hz : ∀ r c, inGrid r → inGrid c → m.grid.density r c = 0)
    (h : followsLifecycle ⟨m, [], none⟩ ops) :
    (runCoarse ⟨m, [], none⟩ ops).panic = none ∧
      ∀ r c, inGrid r → inGrid c →
        (runCoarse ⟨m, [], none⟩ ops).mem.grid.density r c
          = footprintSum (runCoarse ⟨m, [], none⟩ ops).mem
              (runCoarse ⟨m, [], none⟩ ops).placed r c := by
  have h0 : CoarseInv ⟨m, [], none⟩ :=
    ⟨rfl, List.nodup_nil, fun n hn => absurd hn (List.not_mem_nil n),
      fun r c hr hc => by simp [footprintSum, hz r c hr hc]⟩
  have := h0.runCoarse ops h
  exact ⟨this.1, this.2.2.2⟩

theorem windowInGrid_coarseSub (m : Mem) (n p : Ptr) :
    windowInGrid (densityGrid.coarseSub m n).state p ↔ windowInGrid m p :=
  windowInGrid_congr _ _ _ (by rw [(coarseSub_frame m n).2.2])

theorem windowInGrid_setAddPos (m : Mem) (n : Ptr) (q : Vec) :
    windowInGrid (setAddPos m n q) n
      ↔ originWindowInGrid (cellOf q.Y - openOrdRadius) (cellOf q.X - openOrdRadius) := by
  simp [windowInGrid, setAddPos]

theorem CoarseOp.run_add (s : CoarseState) (n : Ptr) (hp : s.panic = none)
    (hw : windowInGrid s.mem n) :
    (CoarseOp.add n).run s = ⟨(densityGrid.coarseAdd s.mem n).state, n :: s.placed, none⟩ := by
  simp only [CoarseOp.run, hp, add_coarse]
  rw [coarseAdd_ok _ _ hw]

theorem CoarseOp.run_sub (s : CoarseState) (n : Ptr) (f : Bool) (hp : s.panic = none)
    (hw : windowInGrid s.mem n) :
    (CoarseOp.sub n f).run s
      = ⟨(densityGrid.coarseSub s.mem n).state, s.placed.erase n, none⟩ := by
  simp only [CoarseOp.run, hp, sub_coarse]
  rw [coarseSub_ok _ _ hw]

theorem CoarseOp.run_move (s : CoarseState) (n : Ptr) (q : Vec) (hp : s.panic = none) :
    (CoarseOp.move n q).run s = ⟨setAddPos s.mem n q, s.placed, none⟩ := by
  simp only [CoarseOp.run, hp]

theorem followsLifecycle_example :
    followsLifecycle ⟨memAt ⟨0, 0⟩, [], none⟩
      [CoarseOp.add 0, CoarseOp.sub 0 false, CoarseOp.move 0 ⟨4, 0⟩, CoarseOp.add 0] := by
  have h0 := windowInGrid_memAt_origin 0
  have h1 := (windowInGrid_coarseAdd (memAt ⟨0, 0⟩) 0 0).2 h0
  have h4 : originWindowInGrid (cellOf (Vec.Y ⟨4, 0⟩) - openOrdRadius)
      (cellOf (Vec.X ⟨4, 0⟩) - openOrdRadius) := by
    simp only [originWindowInGrid, cellOf_0, cellOf_4, openOrdRadius, openOrdGridSize]
    omega
  refine ⟨⟨List.not_mem_nil 0, h0⟩, ?_⟩
  rw [CoarseOp.run_add ⟨memAt ⟨0, 0⟩, [], none⟩ 0 rfl h0]
  refine ⟨List.mem_singleton.2 rfl, ?_⟩
  rw [CoarseOp.run_sub ⟨(densityGrid.coarseAdd (memAt ⟨0, 0⟩) 0).state, [0], none⟩ 0 false rfl h1]
  refine ⟨List.not_mem_nil 0, ?_⟩
  rw [CoarseOp.run_move ⟨_, _, none⟩ 0 ⟨4, 0⟩ rfl]
  exact ⟨⟨List.not_mem_nil 0, (windowInGrid_setAddPos _ 0 ⟨4, 0⟩).2 h4⟩, trivial⟩

theorem coarse_density_is_footprint_sum_witness :
    (∀ r c, inGrid r → inGrid c → (memAt ⟨0, 0⟩).grid.density r c = 0) ∧
      followsLifecycle ⟨memAt ⟨0, 0⟩, [], none⟩
        [CoarseOp.add 0, CoarseOp.sub 0 false, CoarseOp.move 0 ⟨4, 0⟩, CoarseOp.add 0] ∧
      (runCoarse ⟨memAt ⟨0, 0⟩, [], none⟩
        [CoarseOp.add 0, CoarseOp.sub 0 false, CoarseOp.move 0 ⟨4, 0⟩, CoarseOp.add 0]).panic
        = none :=
  ⟨fun r c _ _ => memAt_density ⟨0, 0⟩ r c, followsLifecycle_example,
    (coarse_density_is_footprint_sum (memAt ⟨0, 0⟩) _ (fun r c _ _ => memAt_density ⟨0, 0⟩ r c)
      followsLifecycle_example).1⟩

/-! ## Monotonicity of the coarse query -/

theorem kernelWeight_neg (i j : Int) : kernelWeight (-i) (-j) = kernelWeight i j := by
  simp only [kernelWeight, Int.cast_neg, abs_neg]

/-- C14: after `init()`, for all integers `i`, `j` in `[-R, R]` (R = 10),
`fallOff[i+R][j+R] = (R - |i|/R) * (R - |j|/R)` over exact arithmetic, whatever the kernel held
before; the centre weight `fallOff[R][R]` is 100; and `init` changes neither the density array
nor any bin. -/
theorem init_kernel (g : densityGrid) (i j : Int) (hi : -openOrdRadius ≤ i ∧ i ≤ openOrdRadius)
    (hj : -openOrdRadius ≤ j ∧ j ≤ openOrdRadius) :
    (densityGrid.init g).fallOff (i + openOrdRadius) (j + openOrdRadius)
        = ((openOrdRadius : ℚ) - |(i : ℚ)| / (openOrdRadius : ℚ)) *
          ((openOrdRadius : ℚ) - |(j : ℚ)| / (openOrdRadius : ℚ)) ∧
      (densityGrid.init g).fallOff openOrdRadius openOrdRadius = 100 ∧
      (densityGrid.init g).density = g.density ∧
      (densityGrid.init g).bins = g.bins := by
  simp only [openOrdRadius] at hi hj
  refine ⟨?_, ?_, init_density g, init_bins g⟩
  · rw [init_fallOff g _ _ (by simp only [openOrdRadius]; omega)
      (by simp only [openOrdRadius]; omega)]
    simp only [kernelWeight, openOrdRadius]
    congr 4 <;> push_cast <;> ring
  · rw [init_fallOff g _ _ (by simp only [openOrdRadius]; omega)
      (by simp only [openOrdRadius]; omega)]
    norm_num [kernelWeight, openOrdRadius]

theorem init_kernel_witness :
    (-openOrdRadius ≤ (3 : Int) ∧ (3 : Int) ≤ openOrdRadius) ∧
      (-openOrdRadius ≤ (-10 : Int) ∧ (-10 : Int) ≤ openOrdRadius) ∧
      (densityGrid.init densityGrid.zero).fallOff (3 + openOrdRadius) (-10 + openOrdRadius)
        = ((openOrdRadius : ℚ) - |((3 : Int) : ℚ)| / (openOrdRadius : ℚ)) *
          ((openOrdRadius : ℚ) - |((-10 : Int) : ℚ)| / (openOrdRadius : ℚ)) :=
  ⟨by decide, by decide,
    (init_kernel densityGrid.zero 3 (-10) (by decide) (by decide)).1⟩

/-- C15: kernel symmetry. After `init()`, for all offsets `i`, `j` in `[-R, R]`,
`fallOff[R+i][R+j] = fallOff[R-i][R-j]`. -/
theorem init_kernel_symmetric (g : densityGrid) (i j : Int)
    (hi : -openOrdRadius ≤ i ∧ i ≤ openOrdRadius)
    (hj : -openOrdRadius ≤ j ∧ j ≤ openOrdRadius) :
    (densityGrid.init g).fallOff (openOrdRadius + i) (openOrdRadius + j)
      = (densityGrid.init g).fallOff (openOrdRadius - i) (openOrdRadius - j) := by
  simp only [openOrdRadius] at hi hj ⊢
  rw [init_fallOff g _ _ (by omega) (by omega), init_fallOff g _ _ (by omega) (by omega)]
  have e1 : (10 : Int) + i - 10 = i := by ring
  have e2 : (10 : Int) + j - 10 = j := by ring
  have e3 : (10 : Int) - i - 10 = -i := by ring
  have e4 : (10 : Int) - j - 10 = -j := by ring
  rw [e1, e2, e3, e4, kernelWeight_neg]

theorem init_kernel_symmetric_witness :
    (-openOrdRadius ≤ (3 : Int) ∧ (3 : Int) ≤ openOrdRadius) ∧
      (-openOrdRadius ≤ (-10 : Int) ∧ (-10 : Int) ≤ openOrdRadius) ∧
      (densityGrid.init densityGrid.zero).fallOff (openOrdRadius + 3) (openOrdRadius + -10)
        = (densityGrid.init densityGrid.zero).fallOff (openOrdRadius - 3)
            (openOrdRadius - -10) :=
  ⟨by decide, by decide, init_kernel_symmetric densityGrid.zero 3 (-10) (by decide) (by decide)⟩

/-! ## Frame of the coarse add -/

theorem fineSub_density (m : Mem) (n : Ptr) :
    (densityGrid.fineSub m n).state.grid.density = m.grid.density ∧
      (densityGrid.fineSub m n).state.grid.fallOff = m.grid.fallOff ∧
      (densityGrid.fineSub m n).state.nodes = m.nodes := by
  simp only [densityGrid.fineSub]
  split
  · split <;> exact ⟨rfl, rfl, rfl⟩
  · exact ⟨rfl, rfl, rfl⟩

/-- C18: a first placement has nothing to remove. `sub(n, true, fineFirstAdd, fine)` with
`fine = false` or `fineFirstAdd = true` does not fail and leaves the whole state (density,
bins, nodes) unchanged; and with `fine = true` and `fineFirstAdd = false`, whatever `firstAdd`
is, `sub` is the fine dequeue alone and leaves the density array unchanged. -/
theorem sub_first_placement (m : Mem) (n : Ptr) (firstAdd fineFirstAdd fine : Bool) :
    densityGrid.sub m n true fineFirstAdd false = ⟨m, none⟩ ∧
      densityGrid.sub m n true true fine = ⟨m, none⟩ ∧
      densityGrid.sub m n firstAdd false true = densityGrid.fineSub m n ∧
      (densityGrid.sub m n firstAdd false true).state.grid.density = m.grid.density := by
  refine ⟨by simp [densityGrid.sub], by simp [densityGrid.sub], sub_fine m n firstAdd, ?_⟩
  rw [sub_fine]
  exact (fineSub_density m n).1

/-! ## Enqueue in detail -/

theorem enqueue_compact (q : openOrdQueue) (n : Option Ptr) (g : Nat)
    (hc : q.data.length = q.cap) (h0 : 0 < q.head) (h1 : q.head ≤ q.data.length) :
    q.enqueue n g = ⟨⟨0, q.data.drop q.head.toNat ++ [n], q.cap⟩, none⟩ := by
  have h2 : 0 ≤ q.len ∧ q.len ≤ (q.cap : Int) := by
    simp only [openOrdQueue.len]; omega
  have h3 : q.len.toNat = (List.drop q.head.toNat q.data).length := by
    simp only [openOrdQueue.len, List.length_drop]; omega
  have h4 : (List.drop q.head.toNat q.data).length + 1 ≤ q.cap := by
    simp only [List.length_drop]; omega
  dsimp only [openOrdQueue.enqueue]
  rw [if_pos ⟨hc, h0⟩, if_pos h1, if_pos h2, h3, List.take_left]
  simp only [goAppend, if_pos h4]

theorem enqueue_plain (q : openOrdQueue) (n : Option Ptr) (g : Nat)
    (hc : ¬ (q.data.length = q.cap ∧ q.head > 0)) :
    q.enqueue n g = ⟨⟨q.head, q.data ++ [n],
      if q.data.length + 1 ≤ q.cap then q.cap else q.data.length + 1 + g⟩, none⟩ := by
  dsimp only [openOrdQueue.enqueue]
  rw [if_neg hc]
  simp only [goAppend]
  split <;> rfl

theorem slice_ok_iff (q : openOrdQueue) (l : List (Option Ptr)) :
    q.slice = Except.ok l ↔ (0 ≤ q.head ∧ q.head ≤ q.data.length) ∧ q.data.drop q.head.toNat = l := by
  simp only [openOrdQueue.slice]
  split
  · rename_i h
    simp [h]
  · rename_i h
    simp [h]

/-- C19: on a queue whose backing storage is full (`len(data) = cap(data)`) and whose head
offset is non-zero, `enqueue(n)` does not fail, moves the live entries to the front in their
original order, sets `head` to 0 and stores `n` after them, with the capacity of the backing
storage unchanged: the live count is strictly less than the capacity, so the append fits. -/
theorem enqueue_compacts (q : openOrdQueue) (n : Option Ptr) (grow : Nat)
    (hfull : q.data.length = q.cap) (hhead : 0 < q.head) (hle : q.head ≤ q.data.length) :
    (q.enqueue n grow).panic = none ∧
      (q.enqueue n grow).state.head = 0 ∧
      (q.enqueue n grow).state.data = q.data.drop q.head.toNat ++ [n] ∧
      (q.enqueue n grow).state.cap = q.cap ∧
      (q.data.drop q.head.toNat).length < q.cap ∧
      (q.enqueue n grow).state.slice = Except.ok (q.data.drop q.head.toNat ++ [n]) := by
  rw [enqueue_compact q n grow hfull hhead hle]
  refine ⟨rfl, rfl, rfl, rfl, ?_, ?_⟩
  · simp only [List.length_drop]; omega
  · rw [slice_ok_iff]
    simp only [Int.toNat_zero, List.drop_zero, List.length_append, List.length_singleton]
    exact ⟨⟨le_refl 0, by push_cast; omega⟩, trivial⟩

theorem enqueue_compacts_witness :
    (List.length [none, some 7] = 2) ∧ (0 : Int) < 1 ∧
      (1 : Int) ≤ (List.length [none, some 7] : Int) ∧
      (openOrdQueue.enqueue ⟨1, [none, some 7], 2⟩ (some 8) 0).state
        = ⟨0, [some 7, some 8], 2⟩ := by
  have h := enqueue_compacts ⟨1, [none, some 7], 2⟩ (some 8) 0 rfl (by decide) (by decide)
  refine ⟨rfl, by decide, by decide, ?_⟩
  have e : (openOrdQueue.enqueue ⟨1, [none, some 7], 2⟩ (some 8) 0).state
      = ⟨(openOrdQueue.enqueue ⟨1, [none, some 7], 2⟩ (some 8) 0).state.head,
          (openOrdQueue.enqueue ⟨1, [none, some 7], 2⟩ (some 8) 0).state.data,
          (openOrdQueue.enqueue ⟨1, [none, some 7], 2⟩ (some 8) 0).state.cap⟩ := rfl
  rw [e, h.2.1, h.2.2.1, h.2.2.2.1]
  rfl

/-! ## The representation invariant -/

theorem queueWf_enqueue {q : openOrdQueue} (h : QueueWf q) (n : Option Ptr) (g : Nat) :
    QueueWf (q.enqueue n g).state := by
  obtain ⟨h0, h1, h2, h3⟩ := h
  by_cases hc : q.data.length = q.cap ∧ q.head > 0
  · rw [enqueue_compact q n g hc.1 hc.2 h1]
    simp only [QueueWf, List.length_append, List.length_drop, List.length_singleton]
    refine ⟨le_refl 0, by omega, by omega, fun h => ?_⟩
    push_cast at h
    omega
  · rw [enqueue_plain q n g hc]
    simp only [QueueWf, List.length_append, List.length_singleton]
    refine ⟨h0, by push_cast; omega, ?_, fun h => ?_⟩
    · split <;> omega
    · push_cast at h
      omega

theorem queueWf_reset (q : openOrdQueue) : QueueWf q.reset := by
  simp [QueueWf, openOrdQueue.reset]

theorem queueWf_dequeue {q : openOrdQueue} (h : QueueWf q) : QueueWf q.dequeue.1 := by
  obtain ⟨h0, h1, h2, h3⟩ := h
  dsimp only [openOrdQueue.dequeue]
  split
  · exact ⟨h0, h1, h2, h3⟩
  · rename_i hne
    have hlt : q.head < (q.data.length : Int) := by
      simp only [openOrdQueue.len] at hne
      omega
    rw [if_pos ⟨h0, hlt⟩]
    split
    · exact queueWf_reset _
    · rename_i hne1
      simp only [openOrdQueue.len, List.length_set] at hne1
      simp only [QueueWf, List.length_set]
      exact ⟨by omega, by omega, h2, fun h => absurd (by omega) hne1⟩

theorem queueWf_step {q : openOrdQueue} (h : QueueWf q) (op : QueueOp) : QueueWf (op.run q) := by
  cases op with
  | enqueue n g => exact queueWf_enqueue h (some n) g
  | dequeue => exact queueWf_dequeue h
  | reset => exact queueWf_reset q

theorem queueWf_runOps {q : openOrdQueue} (h : QueueWf q) (ops : List QueueOp) :
    QueueWf (runOps q ops) := by
  induction ops generalizing q with
  | nil => exact h
  | cons op ops ih => exact ih (queueWf_step h op)

/-- C20: the representation invariant of the queue. After every sequence of enqueue, dequeue
(successful or failing) and reset applied to a zero-value queue, whatever capacity each
reallocation picks: `0 <= head <= len(data) <= cap(data)`, `len() >= 0`, `head = len(data)`
only when both are 0, and `slice()` shows exactly the entries enqueued and not yet dequeued,
so no dequeued (nil) slot is visible through it. -/
theorem queue_invariant (ops : List QueueOp) :
    0 ≤ (runOps openOrdQueue.zero ops).head ∧
      (runOps openOrdQueue.zero ops).head ≤ (runOps openOrdQueue.zero ops).data.length ∧
      (runOps openOrdQueue.zero ops).data.length ≤ (runOps openOrdQueue.zero ops).cap ∧
      0 ≤ (runOps openOrdQueue.zero ops).len ∧
      ((runOps openOrdQueue.zero ops).head = (runOps openOrdQueue.zero ops).data.length →
        (runOps openOrdQueue.zero ops).head = 0 ∧
          (runOps openOrdQueue.zero ops).data.length = 0) ∧
      (runOps openOrdQueue.zero ops).slice = Except.ok ((specOps [] ops).map some) ∧
      ∀ l, (runOps openOrdQueue.zero ops).slice = Except.ok l → none ∉ l := by
  have hw : QueueWf (runOps openOrdQueue.zero ops) :=
    queueWf_runOps (by simp [QueueWf, openOrdQueue.zero]) ops
  have hr := ((represents_empty 0).runOps ops).slice
  obtain ⟨h0, h1, h2, h3⟩ := hw
  refine ⟨h0, h1, h2, ?_, h3, hr, fun l hl => ?_⟩
  · simp only [openOrdQueue.len]; omega
  · have hr' : (runOps openOrdQueue.zero ops).slice
        = Except.ok ((specOps [] ops).map some) := hr
    rw [hr'] at hl
    injection hl with hl
    rw [← hl]
    simp

/-! ## Fine placement and removal -/

theorem fineAdd_eq (m : Mem) (n : Ptr) (g : Nat)
    (h : inGrid (cellOf (m.nodes n).addPos.Y) ∧ inGrid (cellOf (m.nodes n).addPos.X)) :
    densityGrid.fineAdd m n g =
      ⟨setBin (setSubPos m n) (cellOf (m.nodes n).addPos.Y) (cellOf (m.nodes n).addPos.X)
          ((m.grid.bins (cellOf (m.nodes n).addPos.Y) (cellOf (m.nodes n).addPos.X)).enqueue
            (some n) g).state,
        ((m.grid.bins (cellOf (m.nodes n).addPos.Y) (cellOf (m.nodes n).addPos.X)).enqueue
            (some n) g).panic⟩ := by
  dsimp only [densityGrid.fineAdd]
  rw [if_pos h]
  rfl

theorem fineSub_eq (m : Mem) (n : Ptr)
    (h : inGrid (cellOf (m.nodes n).addPos.Y) ∧ inGrid (cellOf (m.nodes n).addPos.X)) :
    densityGrid.fineSub m n =
      ⟨setBin m (cellOf (m.nodes n).addPos.Y) (cellOf (m.nodes n).addPos.X)
          (m.grid.bins (cellOf (m.nodes n).addPos.Y) (cellOf (m.nodes n).addPos.X)).dequeue.1,
        panicOf
          (m.grid.bins (cellOf (m.nodes n).addPos.Y) (cellOf (m.nodes n).addPos.X)).dequeue.2⟩ := by
  dsimp only [densityGrid.fineSub]
  rw [if_pos h]
  rcases hd : (m.grid.bins (cellOf (m.nodes n).addPos.Y)
    (cellOf (m.nodes n).addPos.X)).dequeue with ⟨q, r⟩
  cases r <;> rfl

theorem setBin_same (m : Mem) (r c : Int) (q : openOrdQueue) :
    (setBin m r c q).grid.bins r c = q := by
  simp [setBin]

theorem setBin_other (m : Mem) (r c r' c' : Int) (q : openOrdQueue) (h : ¬ (r' = r ∧ c' = c)) :
    (setBin m r c q).grid.bins r' c' = m.grid.bins r' c' := by
  simp only [setBin]
  rw [if_neg h]

theorem add_fine (m : Mem) (n : Ptr) (grow : Nat) :
    densityGrid.add m n true grow = densityGrid.fineAdd m n grow := by
  simp [densityGrid.add]

theorem forCount_ok {σ : Type} (body : Int → σ → Outcome σ) (lo : Int) (n : Nat)
    (hb : ∀ i s, lo ≤ i → i < lo + n → (body i s).panic = none) (s : σ) :
    (forCount body lo n s).panic = none := by
  induction n with
  | zero => rfl
  | succ n ih =>
    have ih' := ih (fun i s h1 h2 => hb i s h1 (by push_cast; omega))
    rw [forCount, ih']
    exact hb _ _ (by omega) (by push_cast; omega)

theorem scanBin_some (m : Mem) (pos : Vec) (l : List Ptr) (d : ℚ) :
    (scanBin m pos (l.map some) d).panic = none := by
  induction l generalizing d with
  | nil => rfl
  | cons a t ih =>
    simp only [List.map_cons, scanBin]
    exact ih _

theorem binsWf_of_bins_eq {m m' : Mem} (h : m'.grid.bins = m.grid.bins) (hw : BinsWf m) :
    BinsWf m' := by
  intro r c
  rw [h]
  exact hw r c

theorem binsWf_setBin {m : Mem} (hw : BinsWf m) (r c : Int) (q : openOrdQueue)
    (hq : ∃ l, Represents q l) : BinsWf (setBin m r c q) := by
  intro r' c'
  by_cases h : r' = r ∧ c' = c
  · rw [h.1, h.2, setBin_same]; exact hq
  · rw [setBin_other _ _ _ _ _ _ h]; exact hw r' c'

theorem binsWf_fineAdd {m : Mem} (hw : BinsWf m) (n : Ptr) (g : Nat) :
    BinsWf (densityGrid.fineAdd m n g).state := by
  by_cases h : inGrid (cellOf (m.nodes n).addPos.Y) ∧ inGrid (cellOf (m.nodes n).addPos.X)
  · rw [fineAdd_eq m n g h]
    obtain ⟨l, hl⟩ := hw (cellOf (m.nodes n).addPos.Y) (cellOf (m.nodes n).addPos.X)
    exact binsWf_setBin (binsWf_of_bins_eq rfl hw) _ _ _ ⟨_, (hl.enqueue n g).2⟩
  · dsimp only [densityGrid.fineAdd]
    rw [if_neg h]
    exact binsWf_of_bins_eq rfl hw

theorem binsWf_fineSub {m : Mem} (hw : BinsWf m) (n : Ptr) :
    BinsWf (densityGrid.fineSub m n).state := by
  by_cases h : inGrid (cellOf (m.nodes n).addPos.Y) ∧ inGrid (cellOf (m.nodes n).addPos.X)
  · rw [fineSub_eq m n h]
    obtain ⟨l, hl⟩ := hw (cellOf (m.nodes n).addPos.Y) (cellOf (m.nodes n).addPos.X)
    exact binsWf_setBin hw _ _ _ ⟨_, hl.dequeue.2⟩
  · dsimp only [densityGrid.fineSub]
    rw [if_neg h]
    exact hw

theorem binsWf_step {m : Mem} (hw : BinsWf m) (op : GridOp) : BinsWf (op.run m) := by
  cases op with
  | init => exact binsWf_of_bins_eq (init_bins m.grid) hw
  | add n fine g =>
    cases fine with
    | true =>
      show BinsWf (densityGrid.add m n true g).state
      rw [add_fine]
      exact binsWf_fineAdd hw n g
    | false =>
      show BinsWf (densityGrid.add m n false g).state
      rw [add_coarse]
      exact binsWf_of_bins_eq (coarseAdd_frame m n).1 hw
  | sub n firstAdd fineFirstAdd fine =>
    show BinsWf (densityGrid.sub m n firstAdd fineFirstAdd fine).state
    dsimp only [densityGrid.sub]
    split
    · exact binsWf_fineSub hw n
    · split
      · exact binsWf_of_bins_eq (coarseSub_frame m n).1 hw
      · exact hw
  | move n q => exact binsWf_of_bins_eq rfl hw

theorem binsWf_runGrid {m : Mem} (hw : BinsWf m) (ops : List GridOp) :
    BinsWf (runGrid m ops) := by
  induction ops generalizing m with
  | nil => exact hw
  | cons op ops ih => exact ih (binsWf_step hw op)

theorem binsWf_zero (nodes : Ptr → openOrdNode) : BinsWf ⟨densityGrid.zero, nodes⟩ :=
  fun _ _ => ⟨[], represents_empty 0⟩

theorem neighbourhood_inGrid (pos : Vec) (h : ¬ inWall pos) (i j : Int)
    (hi : cellOf pos.Y - 1 ≤ i ∧ i ≤ cellOf pos.Y + 1)
    (hj : cellOf pos.X - 1 ≤ j ∧ j ≤ cellOf pos.X + 1) :
    (inGrid i ∧ inGrid j) ∧ inGrid (cellOf pos.Y) ∧ inGrid (cellOf pos.X) := by
  simp only [inWall, not_or, boundary, openOrdGridSize] at h
  simp only [inGrid, openOrdGridSize]
  omega

theorem at_total_of_binsWf (m : Mem) (pos : Vec) (fine : Bool) (hw : BinsWf m) :
    ∃ v, densityGrid.at m pos fine = Except.ok v := by
  by_cases hwall : inWall pos
  · exact ⟨_, at_wall m pos fine hwall⟩
  · cases fine with
    | false => exact ⟨_, at_coarse m pos hwall⟩
    | true =>
      have hy : ¬ (cellOf pos.Y < boundary ∨ openOrdGridSize - boundary < cellOf pos.Y) :=
        fun h => hwall (Or.inl h)
      have hx : ¬ (cellOf pos.X < boundary ∨ openOrdGridSize - boundary < cellOf pos.X) :=
        fun h => hwall (Or.inr h)
      have hp : (forLoop (cellOf pos.Y - 1) (cellOf pos.Y + 1) (fun i d1 =>
          forLoop (cellOf pos.X - 1) (cellOf pos.X + 1) (fun j d2 =>
            if inGrid i ∧ inGrid j then
              match (m.grid.bins i j).slice with
              | Except.ok l => scanBin m pos l d2
              | Except.error e => ⟨d2, some e⟩
            else ⟨d2, some Panic.indexOutOfRange⟩) d1) (0 : ℚ)).panic = none := by
        apply forCount_ok
        intro i d1 hi1 hi2
        apply forCount_ok
        intro j d2 hj1 hj2
        have hg := (neighbourhood_inGrid pos hwall i j ⟨hi1, by omega⟩ ⟨hj1, by omega⟩).1
        obtain ⟨l, hl⟩ := hw i j
        simp only [if_pos hg, hl.slice]
        exact scanBin_some m pos l d2
      dsimp only [densityGrid.at]
      rw [if_neg hy, if_neg hx]
      simp only [Bool.not_true, Bool.false_eq_true, if_false]
      split
      · exact ⟨_, rfl⟩
      · rename_i e he
        exact absurd (hp.symm.trans he) (by simp)

/-- C13: `at` is total. On every grid state reached from the zero-value grid by any sequence of
`init`, `add`, `sub` calls (completed or stopped by a panic) and position changes, for every
position and both values of `fine`, `at(pos, fine)` returns a value without failing; and
whenever the wall test is passed, every index used to read `density[y][x]` and `bins[i][j]`,
`i` in `y-1..y+1`, `j` in `x-1..x+1`, lies in `[0, G)`. -/
theorem at_total (nodes : Ptr → openOrdNode) (ops : List GridOp) (pos : Vec) (fine : Bool) :
    (∃ v, densityGrid.at (runGrid ⟨densityGrid.zero, nodes⟩ ops) pos fine = Except.ok v) ∧
      (¬ inWall pos → ∀ i j : Int,
        cellOf pos.Y - 1 ≤ i ∧ i ≤ cellOf pos.Y + 1 →
        cellOf pos.X - 1 ≤ j ∧ j ≤ cellOf pos.X + 1 →
        (inGrid i ∧ inGrid j) ∧ inGrid (cellOf pos.Y) ∧ inGrid (cellOf pos.X)) :=
  ⟨at_total_of_binsWf _ pos fine (binsWf_runGrid (binsWf_zero nodes) ops),
    fun h i j hi hj => neighbourhood_inGrid pos h i j hi hj⟩

/-! ## Tracking the fine bins -/

theorem fineSub_nodes (m : Mem) (n : Ptr) : (densityGrid.fineSub m n).state.nodes = m.nodes :=
  (fineSub_density m n).2.2

end OpenOrd
